import Mathlib

/-!
Verification development for the uops.info model importer
(`osaca/data/model_importer.py`).

The Python source is shallowly embedded below.  Python dictionaries are
represented as association lists kept sorted by key (Python dict equality is
key/value equality, so the canonical sorted representation makes Lean `=`
coincide with Python `==` on dicts built by the program).  Python floats
produced by `int(v) / len(ports)` are represented exactly as rationals.
Python `str`/`int` conversions are modelled by executable digit functions.
Failures (`ValueError`, `IndexError`, `KeyError`, `UnboundLocalError`) are
modelled with `Except`.
-/

set_option maxHeartbeats 1000000

/-- Decimal digit character for a digit value, modelling Python's `str` on
a single digit.  Values `≥ 10` never occur (see `Nat.digits_lt_base`). -/
def digitChr : Nat → Char
  | 0 => '0'
  | 1 => '1'
  | 2 => '2'
  | 3 => '3'
  | 4 => '4'
  | 5 => '5'
  | 6 => '6'
  | 7 => '7'
  | 8 => '8'
  | _ => '9'

/-- Numeric value of a decimal digit character. -/
def digitVal (c : Char) : Nat := c.toNat - 48

/-- Little-endian base-10 digits with explicit fuel (each step divides the
argument by 10, so `n` steps always suffice); agrees with `Nat.digits 10`
(see `natDigitsGo_eq_digits` below) while evaluating by kernel reduction. -/
def natDigitsGo : Nat → Nat → List Nat
  | 0, _ => []
  | fuel + 1, n => if n = 0 then [] else n % 10 :: natDigitsGo fuel (n / 10)

/-- Decimal digit string of a natural number (most significant digit first),
modelling Python's `str` on a non-negative integer. -/
def natStr (n : Nat) : List Char :=
  match n with
  | 0 => ['0']
  | Nat.succ m => ((natDigitsGo (Nat.succ m) (Nat.succ m)).reverse).map digitChr

/-- Python's `str` on an integer. -/
def intStr (i : Int) : String :=
  if i < 0 then String.mk ('-' :: natStr i.natAbs) else String.mk (natStr i.toNat)

/-- Accumulate the numeric value of a big-endian digit-character list. -/
def parseNatChars (l : List Char) : Nat :=
  l.foldl (fun a c => 10 * a + digitVal c) 0

/-- Python's `int` on a string: an optional minus sign followed by at least
one decimal digit; anything else raises `ValueError`, modelled as `none`. -/
def parseIntL : List Char → Option Int
  | [] => none
  | c :: rest =>
    if c = '-' then
      if rest ≠ [] ∧ rest.all Char.isDigit then some (-(parseNatChars rest : Int)) else none
    else if (c :: rest).all Char.isDigit then some ((parseNatChars (c :: rest) : Int))
    else none

def parseInt? (s : String) : Option Int := parseIntL s.data

/-- Source `int_or_zero`: `int(s)` with `ValueError` mapped to `0`. -/
def int_or_zero (s : String) : Int := (parseInt? s).getD 0

/-- Python's `str.strip()`: drop leading and trailing whitespace. -/
def stripSpaces (l : List Char) : List Char :=
  ((l.dropWhile Char.isWhitespace).reverse.dropWhile Char.isWhitespace).reverse

/-- Left-to-right non-overlapping substitution of the regex pattern
`\x7bK([0-7])\x7d` by `K\1`, as in `re.sub` in `normalize_reg_name`.
The digit class `[0-7]` is expanded into one pattern per digit; a position
where the pattern does not match emits one character and scanning resumes at
the next position. -/
def subMask : List Char → List Char
  | '{' :: 'K' :: '0' :: '}' :: rest => 'K' :: '0' :: subMask rest
  | '{' :: 'K' :: '1' :: '}' :: rest => 'K' :: '1' :: subMask rest
  | '{' :: 'K' :: '2' :: '}' :: rest => 'K' :: '2' :: subMask rest
  | '{' :: 'K' :: '3' :: '}' :: rest => 'K' :: '3' :: subMask rest
  | '{' :: 'K' :: '4' :: '}' :: rest => 'K' :: '4' :: subMask rest
  | '{' :: 'K' :: '5' :: '}' :: rest => 'K' :: '5' :: subMask rest
  | '{' :: 'K' :: '6' :: '}' :: rest => 'K' :: '6' :: subMask rest
  | '{' :: 'K' :: '7' :: '}' :: rest => 'K' :: '7' :: subMask rest
  | c :: rest => c :: subMask rest
  | [] => []

/-- Left-to-right non-overlapping substitution of the regex pattern
`ST\(([0-7])\)` by `ST\1`, as in `re.sub` in `normalize_reg_name`. -/
def subST : List Char → List Char
  | 'S' :: 'T' :: '(' :: '0' :: ')' :: rest => 'S' :: 'T' :: '0' :: subST rest
  | 'S' :: 'T' :: '(' :: '1' :: ')' :: rest => 'S' :: 'T' :: '1' :: subST rest
  | 'S' :: 'T' :: '(' :: '2' :: ')' :: rest => 'S' :: 'T' :: '2' :: subST rest
  | 'S' :: 'T' :: '(' :: '3' :: ')' :: rest => 'S' :: 'T' :: '3' :: subST rest
  | 'S' :: 'T' :: '(' :: '4' :: ')' :: rest => 'S' :: 'T' :: '4' :: subST rest
  | 'S' :: 'T' :: '(' :: '5' :: ')' :: rest => 'S' :: 'T' :: '5' :: subST rest
  | 'S' :: 'T' :: '(' :: '6' :: ')' :: rest => 'S' :: 'T' :: '6' :: subST rest
  | 'S' :: 'T' :: '(' :: '7' :: ')' :: rest => 'S' :: 'T' :: '7' :: subST rest
  | c :: rest => c :: subST rest
  | [] => []

/-- Source `normalize_reg_name`: strip spaces, rewrite mask-register and
x87-stack-register annotations to bare names. -/
def normalize_reg_name (s : String) : String :=
  String.mk (subST (subMask (stripSpaces s.data)))

/-- Python's `str.split(',')`. -/
def splitComma : List Char → List (List Char)
  | [] => [[]]
  | c :: rest =>
    match c, splitComma rest with
    | ',', gs => [] :: gs
    | _, g :: gs => (c :: g) :: gs
    | _, [] => [[c]]

/-- Python's `str.upper()` (ASCII, as used on mnemonics). -/
def strUpper (s : String) : String := String.mk (s.data.map Char.toUpper)

/-- Python's `str.lower()` (ASCII, as used on mnemonics). -/
def strLower (s : String) : String := String.mk (s.data.map Char.toLower)

/-- Python's `str.endswith(t)`. -/
def strEndsWith (s t : String) : Bool := t.data.isSuffixOf s.data

/-- Python's `'_'.join(ps)`. -/
def joinUnderscore (ps : List String) : String :=
  String.mk (List.intercalate ['_'] (ps.map String.data))

/-- Python's `'\x7bopmask\x7d' in p` substring test. -/
def hasOpmaskL : List Char → Bool
  | '{' :: 'o' :: 'p' :: 'm' :: 'a' :: 's' :: 'k' :: '}' :: _ => true
  | _ :: rest => hasOpmaskL rest
  | [] => false

/-- Python's `p.replace('\x7bopmask\x7d', '')`: remove every (non-overlapping,
left-to-right) occurrence of the opmask marker. -/
def stripOpmaskL : List Char → List Char
  | '{' :: 'o' :: 'p' :: 'm' :: 'a' :: 's' :: 'k' :: '}' :: rest => stripOpmaskL rest
  | c :: rest => c :: stripOpmaskL rest
  | [] => []

/-- Substring test for the opmask marker on a parameter token. -/
def hasOpmask (p : String) : Bool := hasOpmaskL p.data

/-- Opmask-marker removal on a parameter token. -/
def stripOpmask (p : String) : String := String.mk (stripOpmaskL p.data)

/-- Lexicographic strict comparison of character lists by code point,
Python's `<` on strings. -/
def charsLt : List Char → List Char → Bool
  | [], [] => false
  | [], _ :: _ => true
  | _ :: _, [] => false
  | a :: as, b :: bs => a < b || (a = b && charsLt as bs)

/-- Python's `<` on strings (lexicographic by code point). -/
def strLt (a b : String) : Bool := charsLt a.data b.data

/-- Port-occupancy vector: Python dict from port identifier to fractional
cycle count, canonically represented as an association list sorted by key. -/
abbrev Occ := List (String × ℚ)

/-- Rational addition, written with `mkRat` so that it evaluates by kernel
reduction (the library's `Rat.add` is irreducible); `qadd_eq_add` below
proves it equal to `+`. -/
def qadd (a b : ℚ) : ℚ :=
  mkRat (a.num * (b.den : Int) + b.num * (a.den : Int)) (a.den * b.den)

/-- Rational maximum, written with an executable comparison; `qmax_eq_max`
below proves it equal to `max`.  Like Python's `max`, ties keep the earlier
argument. -/
def qmax (a b : ℚ) : ℚ := if a < b then b else a

/-- Dict update `occ[k] += v` on a `defaultdict(int)`: insert the key at its
sorted position or add to the existing value. -/
def addOcc : Occ → String → ℚ → Occ
  | [], k, v => [(k, v)]
  | (k0, v0) :: rest, k, v =>
    if strLt k k0 then (k, v) :: (k0, v0) :: rest
    else if k = k0 then (k0, qadd v0 v) :: rest
    else (k0, v0) :: addOcc rest k v

/-- Dict update `occ[k] = v`: insert the key at its sorted position or
replace the existing value. -/
def setOcc : Occ → String → ℚ → Occ
  | [], k, v => [(k, v)]
  | (k0, v0) :: rest, k, v =>
    if strLt k k0 then (k, v) :: (k0, v0) :: rest
    else if k = k0 then (k0, v) :: rest
    else (k0, v0) :: setOcc rest k v

/-- Keys of the association list are strictly ascending (the canonical-dict
invariant maintained by `addOcc` and `setOcc`). -/
def occSorted (o : Occ) : Prop := List.Chain' (fun a b => strLt a.1 b.1 = true) o

/-- Insertion into a sorted duplicate-free list of strings; folding it over
all keys models Python's `sorted(set(...))`. -/
def insortU (x : String) : List String → List String
  | [] => [x]
  | y :: ys =>
    if strLt x y then x :: y :: ys else if x = y then y :: ys else y :: insortU x ys

/-- Stable insertion with respect to a boolean "less or equal" test. -/
def insertLE {α : Type} (le : α → α → Bool) (x : α) : List α → List α
  | [] => [x]
  | y :: ys => if le x y then x :: y :: ys else y :: insertLE le x ys

/-- Stable insertion sort, modelling Python's `sorted`. -/
def isortLE {α : Type} (le : α → α → Bool) : List α → List α
  | [] => []
  | x :: xs => insertLE le x (isortLE le xs)

/-- Python's `sorted(d.items())` on a dict (unique keys): sort pairs by key. -/
def sortItems (o : Occ) : Occ := isortLE (fun a b => ! strLt b.1 a.1) o

/-- Python's `max` over a list of integers; the `[]` case raises `ValueError`
and is guarded at every call site. -/
def listMaxInt : List Int → Int
  | [] => 0
  | x :: xs => xs.foldl max x

/-- Python's `list.index(x)`: position of the first occurrence, `ValueError`
(modelled as `none`) when absent. -/
def indexOf? (x : String) : List String → Option Nat
  | [] => none
  | y :: ys => if y == x then some 0 else (indexOf? x ys).map (· + 1)

/-- Python's `list.insert(i, x)`: insert before position `i`, clamping to an
append when `i` is past the end. -/
def insertAt : List String → Nat → String → List String
  | l, 0, x => x :: l
  | [], _ + 1, x => [x]
  | y :: ys, n + 1, x => y :: insertAt ys n x

/-- Error from `extract_paramters`: a `ValueError` (unknown register class or
unknown operand type) or an `IndexError` (opmask marker appended with no
previously emitted token, `parameters[-1]` on an empty list). -/
inductive ParamError
  | valueError (msg : String)
  | indexError
deriving DecidableEq

/-- Run-aborting error inside `extract_model`: the `IndexError` above escapes
the `except ValueError` handler, a latency tag with a `latency` attribute but
no `cycles` attribute raises `KeyError`, and using `parameters` before its
first successful binding raises `UnboundLocalError`. -/
inductive RunError
  | indexError
  | keyError
  | unboundLocal
deriving DecidableEq

/-- `ValueError` raised inside `dump_csv` (`max` of an empty sequence, or
`list.index` of an absent element). -/
inductive DumpError
  | valueError
deriving DecidableEq

/-- One `<operand>` tag: declared position, suppressed flag (the integer
value of `attrib.get('suppressed', '0')`), type tag and raw text. -/
structure OperandTag where
  idx : Int
  suppressed : Int
  type : String
  text : String
deriving DecidableEq

/-- One `<latency>` tag, keeping its attribute map.  Attribute values are
modelled as the integers the program reads out of them. -/
structure LatencyTag where
  attrib : List (String × Int)
deriving DecidableEq

/-- One `<measurement>` tag: its attribute map and its `<latency>` subtags
(in document order, as produced by `measurement_tag.iter('latency')`). -/
structure Measurement where
  attrib : List (String × Int)
  latencyTags : List LatencyTag
deriving DecidableEq

/-- One `<IACA>` tag: its tool version (the dot-separated numeric components
parsed by `StrictVersion`) and its attribute map. -/
structure IacaRec where
  version : List Nat
  attrib : List (String × Int)
deriving DecidableEq

/-- One `<architecture>` tag with its measurement and IACA subtags in
document order. -/
structure ArchTag where
  name : String
  measurements : List Measurement
  iacas : List IacaRec
deriving DecidableEq

/-- One `<instruction>` tag. -/
structure Instruction where
  asm : String
  operands : List OperandTag
  archs : List ArchTag
deriving DecidableEq

/-- One entry of `model_data`: the tuple
`(mnemonic-variant, throughput, latency, port_occupancy)`. -/
structure Entry where
  instr : String
  tp : ℚ
  lt : Option Int
  occ : Occ
deriving DecidableEq

/-- `StrictVersion` order on parsed dot-separated numeric version components
(lexicographic componentwise comparison). -/
def verLE : List Nat → List Nat → Bool
  | [], _ => true
  | _ :: _, [] => false
  | a :: as, b :: bs => a < b || (a == b && verLE as bs)

/-- Python `sorted(... key=lambda i: StrictVersion(i.attrib['version']))`:
stable sort of the IACA records by ascending tool version. -/
def sortIacas (l : List IacaRec) : List IacaRec :=
  isortLE (fun a b => verLE a.version b.version) l

/-- Python `sorted(... key=lambda p: int(p.attrib['idx']))`: stable sort of
the operand tags by declared position. -/
def sortOperands (l : List OperandTag) : List OperandTag :=
  isortLE (fun a b => decide (a.idx ≤ b.idx)) l

/-- Match of the regex `^port([0-9]+)` on an attribute key: the key must
start with `port` followed by at least one digit; the group is the maximal
digit run. -/
def matchPortKey (k : String) : Option (List Char) :=
  match k.data with
  | 'p' :: 'o' :: 'r' :: 't' :: rest =>
      match rest.takeWhile Char.isDigit with
      | [] => none
      | ds => some ds
  | _ => none

/-- Source `port_occupancy_from_tag_attributes`: convert a raw attribute map
into a fractional port-occupancy vector.  Each matched counter is divided
equally among its candidate ports; on HSW/BDW/SKL/SKX a counter spanning
exactly ports 237 drops port 7 before splitting; a `div_cycles` attribute is
stored verbatim under the synthetic port `0DV`. -/
def port_occupancy_from_tag_attributes (attrib : List (String × Int)) (arch : String) : Occ :=
  let occupancy := attrib.foldl (fun occ kv =>
    match matchPortKey kv.1 with
    | none => occ
    | some ports0 =>
        let ports :=
          if (arch = "HSW" ∨ arch = "BDW" ∨ arch = "SKL" ∨ arch = "SKX")
              ∧ ports0 = ['2', '3', '7'] then
            ports0.filter (fun c => c ≠ '7')
          else ports0
        let perPort : ℚ := mkRat kv.2 ports.length
        ports.foldl (fun o pp => addOcc o (String.mk [pp]) perPort) occ) []
  match attrib.lookup "div_cycles" with
  | some v => setOcc occupancy "0DV" (v : ℚ)
  | none => occupancy

/-- Loop body of `extract_paramters`, threading the accumulated token list
(Python appends to `parameters` while iterating the sorted operand tags).
`sizes` models the external `Register.sizes` lookup table mapping a register
name to its `(bit-width, register-class)` pair. -/
def extractParamtersGo (sizes : String → Option (Nat × String)) :
    List OperandTag → List String → Except ParamError (List String)
  | [], acc => Except.ok acc
  | tag :: rest, acc =>
    if tag.suppressed ≠ 0 then extractParamtersGo sizes rest acc
    else if tag.type = "imm" then extractParamtersGo sizes rest (acc ++ ["imd"])
    else if tag.type = "mem" then extractParamtersGo sizes rest (acc ++ ["mem"])
    else if tag.type = "reg" then
      let possible_regs := (splitComma tag.text.data).map
        (fun cs => normalize_reg_name (String.mk cs))
      let reg_groups := possible_regs.map sizes
      if reg_groups.drop 1 = reg_groups.dropLast then
        match reg_groups with
        | [] => Except.error ParamError.indexError
        | g0 :: _ =>
          match g0 with
          | none => Except.error (ParamError.valueError
              ("Unknown register type for operand with " ++ tag.text ++ "."))
          | some g =>
            if g.2 = "GPR" then
              extractParamtersGo sizes rest (acc ++ ["r" ++ String.mk (natStr g.1)])
            else if tag.text.data.contains '{' then
              match acc.getLast? with
              | none => Except.error ParamError.indexError
              | some lastp =>
                  extractParamtersGo sizes rest (acc.dropLast ++ [lastp ++ "{opmask}"])
            else
              extractParamtersGo sizes rest (acc ++ [strLower g.2])
      else
        extractParamtersGo sizes rest acc
    else if tag.type = "relbr" then extractParamtersGo sizes rest (acc ++ ["LBL"])
    else if tag.type = "agen" then extractParamtersGo sizes rest (acc ++ ["mem"])
    else Except.error (ParamError.valueError ("Unknown paramter type " ++ tag.type ++ "."))

/-- Source `extract_paramters`: normalize the operand tags of one
instruction, in ascending declared-position order, into parameter tokens. -/
def extract_paramters (sizes : String → Option (Nat × String))
    (operands : List OperandTag) : Except ParamError (List String) :=
  extractParamtersGo sizes (sortOperands operands) []

/-- Source `all_or_false`: `all` of a list, except that an empty list gives
`False` instead of `True`. -/
def all_or_false (l : List Bool) : Bool :=
  if l.isEmpty then false else l.all id

/-- Source `build_variants`: the given (uppercased) instruction form, the
opmask-stripped form when any token carries an opmask marker, and the
width-suffixed forms whose suffix register token matches every non-memory,
non-immediate token. -/
def build_variants (mnemonic : String) (parameters : List String) :
    List (String × List String) :=
  let m := strUpper mnemonic
  [(m, parameters)]
  ++ (if parameters.any (fun p => hasOpmask p) then
        [(m, parameters.map (fun p => stripOpmask p))]
      else [])
  ++ ([("Q", "r64"), ("L", "r32"), ("W", "r16"), ("B", "r8")].filterMap
        (fun sr =>
          if ¬ strEndsWith m sr.1
              ∧ all_or_false (((parameters.filter
                    (fun p => ¬ (p = "mem" ∨ p = "imd"))).map
                  (fun p => p == sr.2))) = true then
            some (m ++ sr.1, parameters)
          else none))

/-- Latency samples of one measurement record:
`[int(l.attrib['cycles']) for l in measurement.iter('latency')
  if 'latency' in l.attrib]`.  A tag that passes the filter but has no
`cycles` attribute raises `KeyError`. -/
def measurementLatencies : List LatencyTag → Except RunError (List Int)
  | [] => Except.ok []
  | t :: rest =>
    if (t.attrib.lookup "latency").isSome then
      match t.attrib.lookup "cycles" with
      | none => Except.error RunError.keyError
      | some c =>
        match measurementLatencies rest with
        | Except.error e => Except.error e
        | Except.ok l => Except.ok (c :: l)
    else measurementLatencies rest

/-- Measurement loop of `extract_model` (lines 105-115): collect one
port-occupancy vector per measurement, and thread
`(port_occupancy, latency, ignore, diagnostics)` exactly as the source
mutates them. -/
def measLoop (arch mnemonic : String) :
    List Measurement → List Occ × Option Int × Bool × List String →
    Except RunError (List Occ × Option Int × Bool × List String)
  | [], st => Except.ok st
  | m :: rest, (occs, lat, ign, ds) =>
    let occs2 := occs ++ [port_occupancy_from_tag_attributes m.attrib arch]
    match measurementLatencies m.latencyTags with
    | Except.error e => Except.error e
    | Except.ok lats =>
      if lats.drop 1 ≠ lats.dropLast then
        measLoop arch mnemonic rest
          (occs2, lat, true, ds ++ ["Contradicting latencies found: " ++ mnemonic])
      else
        match lats with
        | [] => measLoop arch mnemonic rest (occs2, lat, ign, ds)
        | l0 :: _ => measLoop arch mnemonic rest (occs2, some l0, ign, ds)

/-- Python `max(list(port_occupancy.values()) + [0.0])`. -/
def maxOcc (o : Occ) : ℚ :=
  match (o.map Prod.snd) ++ [0] with
  | [] => 0
  | x :: xs => xs.foldl qmax x

/-- Reconciliation of one instruction for one architecture (lines 100-128):
run the measurement loop, append the IACA vectors in ascending version
order, and either skip the instruction (`none`: latency contradiction or no
collected vector) or produce `(throughput, latency, authoritative vector)`,
reporting a port-occupancy contradiction when the collected vectors
disagree. -/
def reconcile (arch mnemonic : String) (archTag : ArchTag) (diags : List String) :
    Except RunError (List String × Option (ℚ × Option Int × Occ)) :=
  match measLoop arch mnemonic archTag.measurements ([], none, false, diags) with
  | Except.error e => Except.error e
  | Except.ok (occs, lat, ign, ds) =>
    let port_occupancy := occs ++
      (sortIacas archTag.iacas).map
        (fun i => port_occupancy_from_tag_attributes i.attrib arch)
    if ign then Except.ok (ds, none)
    else
      match port_occupancy.getLast? with
      | none => Except.ok (ds, none)
      | some lastv =>
        let ds2 :=
          if port_occupancy.drop 1 ≠ port_occupancy.dropLast then
            ds ++ ["Contradicting port occupancies, using latest IACA: " ++ mnemonic]
          else ds
        Except.ok (ds2, some (maxOcc lastv, lat, lastv))

/-- Architecture lookup and row production for one instruction (the loop
body of `extract_model` after parameter extraction).  Returns the updated
`parameters` binding, the updated diagnostic list, and the rows appended to
`model_data` (empty when the instruction is skipped). -/
def instStepArch (arch : String) (inst : Instruction)
    (params : Option (List String)) (diags : List String) :
    Except RunError (Option (List String) × List String × List Entry) :=
  match inst.archs.find? (fun a => a.name == arch) with
  | none => Except.ok (params, diags, [])
  | some archTag =>
    match reconcile arch inst.asm archTag diags with
    | Except.error e => Except.error e
    | Except.ok (ds, none) => Except.ok (params, ds, [])
    | Except.ok (ds, some (tp, lat, occv)) =>
      match params with
      | none => Except.error RunError.unboundLocal
      | some ps =>
        Except.ok (params, ds,
          (build_variants inst.asm ps).map (fun mp =>
            { instr := strLower mp.1 ++ "-" ++ joinUnderscore mp.2,
              tp := tp, lt := lat, occ := occv }))

/-- One full iteration of the `extract_model` instruction loop: bind (or
fail to bind) `parameters` exactly as the `try/except ValueError` does, then
process the architecture block.  The `IndexError` raised by
`extract_paramters` is not a `ValueError` and escapes the handler. -/
def instStep (sizes : String → Option (Nat × String)) (arch : String)
    (inst : Instruction) (params : Option (List String)) (diags : List String) :
    Except RunError (Option (List String) × List String × List Entry) :=
  match extract_paramters sizes inst.operands with
  | Except.error ParamError.indexError => Except.error RunError.indexError
  | Except.error (ParamError.valueError msg) =>
      instStepArch arch inst params (diags ++ [msg])
  | Except.ok ps => instStepArch arch inst (some ps) diags

/-- Instruction loop of `extract_model`, threading the `parameters` binding
(which survives across iterations: a `ValueError` leaves the previous,
stale value bound — `none` models "never bound yet"), the diagnostic stream
and the accumulated `model_data`. -/
def extractModelGo (sizes : String → Option (Nat × String)) (arch : String) :
    List Instruction → Option (List String) → List String → List Entry →
    Except RunError (List String × List Entry)
  | [], _, diags, rows => Except.ok (diags, rows)
  | inst :: rest, params, diags, rows =>
    match instStep sizes arch inst params diags with
    | Except.error e => Except.error e
    | Except.ok (params2, diags2, newRows) =>
        extractModelGo sizes arch rest params2 diags2 (rows ++ newRows)

/-- Source `extract_model`: produce the model table (and the diagnostic
stream) for one architecture, or the uncaught exception that aborts the
run. -/
def extract_model (sizes : String → Option (Nat × String)) (arch : String)
    (instructions : List Instruction) : Except RunError (List String × List Entry) :=
  extractModelGo sizes arch instructions none [] []

/-- The sorted union of all port identifiers used by the table's entries
(Python `sorted(set(...))` over the first loop of `dump_csv`). -/
def portsUnion (md : List Entry) : List String :=
  md.foldl (fun acc r => r.occ.foldl (fun a kv => insortU kv.1 a) acc) []

/-- Port-extension loop of `dump_csv` with explicit fuel (each iteration
grows the list by one, so `target` iterations always suffice and the fueled
function agrees with the source's `while` loop): while the list is shorter
than the architecture's declared port count, find the position of the
maximal numeric identifier and insert its successor right after it. -/
def extendPortsGo : Nat → Nat → List String → Except DumpError (List String)
  | 0, _, ports => Except.ok ports
  | Nat.succ fuel, target, ports =>
    if ports.length < target then
      match ports with
      | [] => Except.error DumpError.valueError
      | _ :: _ =>
        let m := listMaxInt (ports.map int_or_zero)
        match indexOf? (intStr m) ports with
        | none => Except.error DumpError.valueError
        | some i => extendPortsGo fuel target (insertAt ports (i + 1) (intStr (m + 1)))
    else Except.ok ports

/-- The `while len(ports) < ... : ports.insert(...)` loop of `dump_csv`. -/
def extendPorts (target : Nat) (ports : List String) : Except DumpError (List String) :=
  extendPortsGo target target ports

/-- Densification of one row: `for p in ports: if p not in po: po[p] = 0.0`. -/
def densify (ports : List String) (po : Occ) : Occ :=
  ports.foldl (fun o p => if (List.lookup p o).isSome then o else setOcc o p 0) po

/-- Source `dump_csv`, modelled up to number formatting: each rendered line
is represented by its field tuple
`(instr, throughput, latency, sorted port/occupancy pairs)`.  The declared
port count and the number of declared extra pipeline ports of the external
scheduler table are passed in as numbers. -/
def dump_csv (md : List Entry) (nports extraPorts : Nat) :
    Except DumpError (List (String × ℚ × Option Int × Occ)) :=
  match extendPorts (nports + extraPorts) (portsUnion md) with
  | Except.error e => Except.error e
  | Except.ok ports2 =>
      Except.ok (md.map (fun r =>
        (r.instr, r.tp, r.lt, sortItems (densify ports2 r.occ))))

/-! ### Helper lemmas -/

theorem qadd_eq_add (a b : ℚ) : qadd a b = a + b := by
  unfold qadd
  rw [Rat.mkRat_eq_div]
  have ha : ((a.den : ℚ)) ≠ 0 := by
    exact_mod_cast a.den_nz
  have hb : ((b.den : ℚ)) ≠ 0 := by
    exact_mod_cast b.den_nz
  push_cast
  conv_rhs => rw [← Rat.num_div_den a, ← Rat.num_div_den b]
  rw [div_add_div _ _ ha hb]
  congr 1
  ring

theorem qmax_eq_max (a b : ℚ) : qmax a b = max a b := by
  unfold qmax
  by_cases h : a < b
  · rw [if_pos h, max_eq_right h.le]
  · rw [if_neg h, max_eq_left (not_lt.mp h)]

theorem natDigitsGo_eq_digits (fuel : Nat) :
    ∀ n, n ≤ fuel → natDigitsGo fuel n = Nat.digits 10 n := by
  induction fuel with
  | zero =>
      intro n hn
      interval_cases n
      simp [natDigitsGo]
  | succ fuel ih =>
      intro n hn
      by_cases h0 : n = 0
      · subst h0; simp [natDigitsGo]
      · have h1 : (1 : Nat) < 10 := by norm_num
        rw [show natDigitsGo (fuel + 1) n = n % 10 :: natDigitsGo fuel (n / 10) by
              simp [natDigitsGo, h0],
            Nat.digits_def' h1 (Nat.pos_of_ne_zero h0),
            ih (n / 10) (by
              have := Nat.div_lt_self (Nat.pos_of_ne_zero h0) (by norm_num : (1:Nat) < 10)
              omega)]

theorem digitVal_digitChr (d : Nat) (h : d < 10) : digitVal (digitChr d) = d := by
  interval_cases d <;> rfl

theorem digitChr_isDigit (d : Nat) : (digitChr d).isDigit = true := by
  rcases d with _ | _ | _ | _ | _ | _ | _ | _ | _ | d <;> rfl

theorem parseNatChars_append (xs : List Char) (c : Char) :
    parseNatChars (xs ++ [c]) = 10 * parseNatChars xs + digitVal c := by
  unfold parseNatChars
  rw [List.foldl_append]
  rfl

theorem parseNatChars_rev_digits (L : List Nat) (hL : ∀ d ∈ L, d < 10) :
    parseNatChars (L.reverse.map digitChr) = Nat.ofDigits 10 L := by
  induction L with
  | nil => rfl
  | cons d L ih =>
      rw [List.reverse_cons, List.map_append, List.map_cons, List.map_nil,
        parseNatChars_append, ih (fun x hx => hL x (List.mem_cons_of_mem d hx)),
        digitVal_digitChr d (hL d (List.mem_cons_self d L)), Nat.ofDigits_cons]
      ring

theorem natStr_all_digit (n : Nat) : ∀ c ∈ natStr n, c.isDigit = true := by
  match n with
  | 0 =>
      intro c hc
      simp only [natStr, List.mem_singleton] at hc
      subst hc; rfl
  | Nat.succ m =>
      intro c hc
      simp only [natStr, List.mem_map] at hc
      obtain ⟨d, _, rfl⟩ := hc
      exact digitChr_isDigit d

theorem natStr_ne_nil (n : Nat) : natStr n ≠ [] := by
  match n with
  | 0 => simp [natStr]
  | Nat.succ m =>
      simp only [natStr, natDigitsGo_eq_digits _ _ (Nat.le_refl _), ne_eq,
        List.map_eq_nil_iff, List.reverse_eq_nil_iff]
      exact Nat.digits_ne_nil_iff_ne_zero.mpr (Nat.succ_ne_zero m)

theorem parseNat_natStr (n : Nat) : parseNatChars (natStr n) = n := by
  match n with
  | 0 => rfl
  | Nat.succ m =>
      rw [show natStr (Nat.succ m)
            = ((Nat.digits 10 (Nat.succ m)).reverse).map digitChr by
          simp [natStr, natDigitsGo_eq_digits _ _ (Nat.le_refl _)]]
      rw [parseNatChars_rev_digits _ (fun d hd => Nat.digits_lt_base (by norm_num) hd)]
      exact Nat.ofDigits_digits 10 (Nat.succ m)

theorem parseIntL_natStr (n : Nat) : parseIntL (natStr n) = some ((n : Int)) := by
  obtain ⟨c, cs, hcons⟩ : ∃ c cs, natStr n = c :: cs := by
    cases h : natStr n with
    | nil => exact absurd h (natStr_ne_nil n)
    | cons c cs => exact ⟨c, cs, rfl⟩
  have hdig : ∀ x ∈ natStr n, x.isDigit = true := natStr_all_digit n
  have hc : c ≠ '-' := by
    intro h
    have hmem := hdig c (by rw [hcons]; exact List.mem_cons_self c cs)
    rw [h] at hmem
    exact absurd hmem (by decide)
  have hall : ((c :: cs).all Char.isDigit) = true := by
    rw [List.all_eq_true]
    intro x hx
    exact hdig x (hcons ▸ hx)
  rw [hcons, show parseIntL (c :: cs)
      = (if c = '-' then
          if cs ≠ [] ∧ cs.all Char.isDigit then some (-(parseNatChars cs : Int))
          else none
        else if (c :: cs).all Char.isDigit then some ((parseNatChars (c :: cs) : Int))
        else none) from rfl]
  rw [if_neg hc, if_pos hall, ← hcons, parseNat_natStr]

theorem int_or_zero_intStr (i : Int) : int_or_zero (intStr i) = i := by
  unfold int_or_zero intStr
  by_cases hneg : i < 0
  · rw [if_pos hneg]
    have hrest : natStr i.natAbs ≠ [] := natStr_ne_nil _
    have hall : (natStr i.natAbs).all Char.isDigit = true := by
      rw [List.all_eq_true]; exact natStr_all_digit _
    have hdata : parseInt? ⟨'-' :: natStr i.natAbs⟩
        = parseIntL ('-' :: natStr i.natAbs) := rfl
    rw [hdata, show parseIntL ('-' :: natStr i.natAbs)
        = (if natStr i.natAbs ≠ [] ∧ (natStr i.natAbs).all Char.isDigit then
            some (-(parseNatChars (natStr i.natAbs) : Int))
          else none) from by rw [show parseIntL ('-' :: natStr i.natAbs)
            = (if ('-' : Char) = '-' then
                if natStr i.natAbs ≠ [] ∧ (natStr i.natAbs).all Char.isDigit then
                  some (-(parseNatChars (natStr i.natAbs) : Int))
                else none
              else if (('-' :: natStr i.natAbs).all Char.isDigit) then
                some ((parseNatChars ('-' :: natStr i.natAbs) : Int))
              else none) from rfl, if_pos rfl]]
    rw [if_pos (And.intro hrest hall), Option.getD_some, parseNat_natStr]
    omega
  · have hdata : parseInt? ⟨natStr i.toNat⟩ = parseIntL (natStr i.toNat) := rfl
    rw [if_neg hneg, hdata, parseIntL_natStr, Option.getD_some]
    omega

theorem mkRat_two_eq (v : Int) : mkRat v 2 = (v : ℚ) / 2 := by
  rw [Rat.mkRat_eq_div]
  norm_num

/-- C7: for every raw attribute map, the Port-Occupancy Extractor divides a
port counter's value equally among its candidate ports (a counter on ports
`23` with value `v` contributes `v/2` to port `2` and `v/2` to port `3`),
and on HSW, BDW, SKL and SKX a counter spanning exactly ports `237`
contributes `v/2` to each of ports `2` and `3` and nothing to port `7`. -/
theorem c7_equal_division (v : Int) (arch : String) :
    (List.lookup "2" (port_occupancy_from_tag_attributes [("port23", v)] arch)
        = some ((v : ℚ) / 2)
      ∧ List.lookup "3" (port_occupancy_from_tag_attributes [("port23", v)] arch)
        = some ((v : ℚ) / 2))
    ∧ (arch = "HSW" ∨ arch = "BDW" ∨ arch = "SKL" ∨ arch = "SKX" →
        port_occupancy_from_tag_attributes [("port237", v)] arch
          = [("2", (v : ℚ) / 2), ("3", (v : ℚ) / 2)]
        ∧ List.lookup "7" (port_occupancy_from_tag_attributes [("port237", v)] arch)
          = none) := by
  constructor
  · have h : port_occupancy_from_tag_attributes [("port23", v)] arch
        = [("2", mkRat v 2), ("3", mkRat v 2)] := by
      unfold port_occupancy_from_tag_attributes
      simp [matchPortKey, addOcc, strLt, charsLt, List.lookup]
    rw [h, mkRat_two_eq]
    simp [List.lookup]
  · intro harch
    have h : port_occupancy_from_tag_attributes [("port237", v)] arch
        = [("2", mkRat v 2), ("3", mkRat v 2)] := by
      rcases harch with rfl | rfl | rfl | rfl <;>
        · unfold port_occupancy_from_tag_attributes
          simp [matchPortKey, addOcc, strLt, charsLt, List.lookup]
    rw [h, mkRat_two_eq]
    simp [List.lookup]

theorem c7_equal_division_witness :
    (List.lookup "2" (port_occupancy_from_tag_attributes [("port23", 3)] "SKL")
        = some (((3 : Int) : ℚ) / 2)
      ∧ List.lookup "3" (port_occupancy_from_tag_attributes [("port23", 3)] "SKL")
        = some (((3 : Int) : ℚ) / 2))
    ∧ (port_occupancy_from_tag_attributes [("port237", 3)] "SKL"
        = [("2", ((3 : Int) : ℚ) / 2), ("3", ((3 : Int) : ℚ) / 2)]
      ∧ List.lookup "7" (port_occupancy_from_tag_attributes [("port237", 3)] "SKL")
        = none) :=
  ⟨(c7_equal_division 3 "SKL").1,
   (c7_equal_division 3 "SKL").2 (Or.inr (Or.inr (Or.inl rfl)))⟩

/-- C5 counterexample: the claim says that a register operand whose
alternatives have disagreeing register classes makes the Parameter
Normalizer fail with the UnrecognizedOperand condition and that it never
silently emits no token.  On an operand listing a general-purpose register
and a vector register, `extract_paramters` instead succeeds with no token
emitted at all. -/
theorem c5_disagreeing_classes_counterexample :
    extract_paramters
        (fun r => if r = "RAX" then some (64, "GPR")
          else if r = "XMM0" then some (128, "XMM") else none)
        [⟨0, 0, "reg", "RAX,XMM0"⟩]
      = Except.ok [] := by rfl

/-- C5 amended: when the looked-up register classes of a register operand's
alternatives disagree, the Parameter Normalizer silently emits no token for
that operand and continues with the remaining operands; the
UnrecognizedOperand condition (`ValueError`) is raised only when the
alternatives agree and their class is unknown. -/
theorem c5_disagreeing_classes_amended (sizes : String → Option (Nat × String))
    (tag : OperandTag) (rest : List OperandTag) (acc : List String)
    (hsupp : tag.suppressed = 0) (htype : tag.type = "reg") :
    ((((splitComma tag.text.data).map
            (fun cs => normalize_reg_name (String.mk cs))).map sizes).drop 1
        ≠ (((splitComma tag.text.data).map
            (fun cs => normalize_reg_name (String.mk cs))).map sizes).dropLast →
      extractParamtersGo sizes (tag :: rest) acc = extractParamtersGo sizes rest acc)
    ∧ ((((splitComma tag.text.data).map
            (fun cs => normalize_reg_name (String.mk cs))).map sizes).drop 1
        = (((splitComma tag.text.data).map
            (fun cs => normalize_reg_name (String.mk cs))).map sizes).dropLast →
      (((splitComma tag.text.data).map
            (fun cs => normalize_reg_name (String.mk cs))).map sizes).head?
        = some none →
      extractParamtersGo sizes (tag :: rest) acc
        = Except.error (ParamError.valueError
            ("Unknown register type for operand with " ++ tag.text ++ "."))) := by
  have hne : ¬ tag.suppressed ≠ 0 := by rw [hsupp]; exact fun h => h rfl
  have himm : ¬ tag.type = "imm" := by rw [htype]; decide
  have hmem : ¬ tag.type = "mem" := by rw [htype]; decide
  constructor
  · intro hdis
    rw [show extractParamtersGo sizes (tag :: rest) acc
        = (if tag.suppressed ≠ 0 then extractParamtersGo sizes rest acc
          else if tag.type = "imm" then extractParamtersGo sizes rest (acc ++ ["imd"])
          else if tag.type = "mem" then extractParamtersGo sizes rest (acc ++ ["mem"])
          else if tag.type = "reg" then
            (if (((splitComma tag.text.data).map
                    (fun cs => normalize_reg_name (String.mk cs))).map sizes).drop 1
                = (((splitComma tag.text.data).map
                    (fun cs => normalize_reg_name (String.mk cs))).map sizes).dropLast
            then
              match (((splitComma tag.text.data).map
                  (fun cs => normalize_reg_name (String.mk cs))).map sizes) with
              | [] => Except.error ParamError.indexError
              | g0 :: _ =>
                match g0 with
                | none => Except.error (ParamError.valueError
                    ("Unknown register type for operand with " ++ tag.text ++ "."))
                | some g =>
                  if g.2 = "GPR" then
                    extractParamtersGo sizes rest (acc ++ ["r" ++ String.mk (natStr g.1)])
                  else if tag.text.data.contains '{' then
                    match acc.getLast? with
                    | none => Except.error ParamError.indexError
                    | some lastp =>
                        extractParamtersGo sizes rest
                          (acc.dropLast ++ [lastp ++ "{opmask}"])
                  else
                    extractParamtersGo sizes rest (acc ++ [strLower g.2])
            else extractParamtersGo sizes rest acc)
          else if tag.type = "relbr" then extractParamtersGo sizes rest (acc ++ ["LBL"])
          else if tag.type = "agen" then extractParamtersGo sizes rest (acc ++ ["mem"])
          else Except.error (ParamError.valueError
              ("Unknown paramter type " ++ tag.type ++ "."))) from rfl]
    rw [if_neg hne, if_neg himm, if_neg hmem, if_pos htype, if_neg hdis]
  · intro hagree hhead
    obtain ⟨tl, hcons⟩ : ∃ tl,
        (((splitComma tag.text.data).map
            (fun cs => normalize_reg_name (String.mk cs))).map sizes) = none :: tl := by
      cases hg : (((splitComma tag.text.data).map
          (fun cs => normalize_reg_name (String.mk cs))).map sizes) with
      | nil => rw [hg] at hhead; exact absurd hhead (by simp)
      | cons g0 tl =>
          rw [hg] at hhead
          simp only [List.head?_cons, Option.some.injEq] at hhead
          exact ⟨tl, by rw [hhead]⟩
    rw [show extractParamtersGo sizes (tag :: rest) acc
        = (if tag.suppressed ≠ 0 then extractParamtersGo sizes rest acc
          else if tag.type = "imm" then extractParamtersGo sizes rest (acc ++ ["imd"])
          else if tag.type = "mem" then extractParamtersGo sizes rest (acc ++ ["mem"])
          else if tag.type = "reg" then
            (if (((splitComma tag.text.data).map
                    (fun cs => normalize_reg_name (String.mk cs))).map sizes).drop 1
                = (((splitComma tag.text.data).map
                    (fun cs => normalize_reg_name (String.mk cs))).map sizes).dropLast
            then
              match (((splitComma tag.text.data).map
                  (fun cs => normalize_reg_name (String.mk cs))).map sizes) with
              | [] => Except.error ParamError.indexError
              | g0 :: _ =>
                match g0 with
                | none => Except.error (ParamError.valueError
                    ("Unknown register type for operand with " ++ tag.text ++ "."))
                | some g =>
                  if g.2 = "GPR" then
                    extractParamtersGo sizes rest (acc ++ ["r" ++ String.mk (natStr g.1)])
                  else if tag.text.data.contains '{' then
                    match acc.getLast? with
                    | none => Except.error ParamError.indexError
                    | some lastp =>
                        extractParamtersGo sizes rest
                          (acc.dropLast ++ [lastp ++ "{opmask}"])
                  else
                    extractParamtersGo sizes rest (acc ++ [strLower g.2])
            else extractParamtersGo sizes rest acc)
          else if tag.type = "relbr" then extractParamtersGo sizes rest (acc ++ ["LBL"])
          else if tag.type = "agen" then extractParamtersGo sizes rest (acc ++ ["mem"])
          else Except.error (ParamError.valueError
              ("Unknown paramter type " ++ tag.type ++ "."))) from rfl]
    rw [if_neg hne, if_neg himm, if_neg hmem, if_pos htype, if_pos hagree, hcons]

theorem c5_disagreeing_classes_amended_witness :
    extractParamtersGo
        (fun r => if r = "RAX" then some (64, "GPR")
          else if r = "XMM0" then some (128, "XMM") else none)
        [⟨0, 0, "reg", "RAX,XMM0"⟩] []
      = extractParamtersGo
          (fun r => if r = "RAX" then some (64, "GPR")
            else if r = "XMM0" then some (128, "XMM") else none)
          [] []
    ∧ extractParamtersGo (fun _ => none) [⟨0, 0, "reg", "FOO"⟩] []
      = Except.error (ParamError.valueError
          ("Unknown register type for operand with " ++ "FOO" ++ ".")) :=
  ⟨(c5_disagreeing_classes_amended
      (fun r => if r = "RAX" then some (64, "GPR")
        else if r = "XMM0" then some (128, "XMM") else none)
      ⟨0, 0, "reg", "RAX,XMM0"⟩ [] [] rfl rfl).1 (by decide),
   (c5_disagreeing_classes_amended (fun _ => none)
      ⟨0, 0, "reg", "FOO"⟩ [] [] rfl rfl).2 (by decide) (by decide)⟩

theorem extractParamtersGo_cons (sizes : String → Option (Nat × String))
    (tag : OperandTag) (rest : List OperandTag) (acc : List String) :
    extractParamtersGo sizes (tag :: rest) acc
      = (if tag.suppressed ≠ 0 then extractParamtersGo sizes rest acc
        else if tag.type = "imm" then extractParamtersGo sizes rest (acc ++ ["imd"])
        else if tag.type = "mem" then extractParamtersGo sizes rest (acc ++ ["mem"])
        else if tag.type = "reg" then
          (if (((splitComma tag.text.data).map
                  (fun cs => normalize_reg_name (String.mk cs))).map sizes).drop 1
              = (((splitComma tag.text.data).map
                  (fun cs => normalize_reg_name (String.mk cs))).map sizes).dropLast
          then
            match (((splitComma tag.text.data).map
                (fun cs => normalize_reg_name (String.mk cs))).map sizes) with
            | [] => Except.error ParamError.indexError
            | g0 :: _ =>
              match g0 with
              | none => Except.error (ParamError.valueError
                  ("Unknown register type for operand with " ++ tag.text ++ "."))
              | some g =>
                if g.2 = "GPR" then
                  extractParamtersGo sizes rest (acc ++ ["r" ++ String.mk (natStr g.1)])
                else if tag.text.data.contains '{' then
                  match acc.getLast? with
                  | none => Except.error ParamError.indexError
                  | some lastp =>
                      extractParamtersGo sizes rest
                        (acc.dropLast ++ [lastp ++ "{opmask}"])
                else
                  extractParamtersGo sizes rest (acc ++ [strLower g.2])
          else extractParamtersGo sizes rest acc)
        else if tag.type = "relbr" then extractParamtersGo sizes rest (acc ++ ["LBL"])
        else if tag.type = "agen" then extractParamtersGo sizes rest (acc ++ ["mem"])
        else Except.error (ParamError.valueError
            ("Unknown paramter type " ++ tag.type ++ "."))) := rfl

theorem extractParamtersGo_skip_suppressed (sizes : String → Option (Nat × String)) :
    ∀ (pre l : List OperandTag) (acc : List String),
      (∀ t ∈ pre, t.suppressed ≠ 0) →
      extractParamtersGo sizes (pre ++ l) acc = extractParamtersGo sizes l acc := by
  intro pre
  induction pre with
  | nil => intro l acc _; rfl
  | cons t pre ih =>
      intro l acc hsupp
      rw [List.cons_append, extractParamtersGo_cons,
        if_pos (hsupp t (List.mem_cons_self t pre)),
        ih l acc (fun x hx => hsupp x (List.mem_cons_of_mem t hx))]

/-- C10: if the first non-suppressed operand (in declared-position order) of
an instruction is a register operand whose raw text carries a mask
annotation and whose alternatives agree on a known, non-general-purpose
register class, parameter extraction fails by indexing the empty token list
(`IndexError`, distinct from the UnrecognizedOperand `ValueError`): the
opmask marker can only be appended to a previously emitted token. -/
theorem c10_opmask_empty_params_indexerror (sizes : String → Option (Nat × String))
    (operands pre rest : List OperandTag) (tag : OperandTag)
    (hsort : sortOperands operands = pre ++ tag :: rest)
    (hpre : ∀ t ∈ pre, t.suppressed ≠ 0)
    (hsupp : tag.suppressed = 0) (htype : tag.type = "reg")
    (hmask : tag.text.data.contains '{' = true)
    (hagree : (((splitComma tag.text.data).map
          (fun cs => normalize_reg_name (String.mk cs))).map sizes).drop 1
        = (((splitComma tag.text.data).map
          (fun cs => normalize_reg_name (String.mk cs))).map sizes).dropLast)
    (hclass : ∃ sz cls, (((splitComma tag.text.data).map
          (fun cs => normalize_reg_name (String.mk cs))).map sizes).head?
        = some (some (sz, cls)) ∧ cls ≠ "GPR") :
    extract_paramters sizes operands = Except.error ParamError.indexError := by
  obtain ⟨sz, cls, hhead, hncls⟩ := hclass
  obtain ⟨tl, hcons⟩ : ∃ tl,
      (((splitComma tag.text.data).map
          (fun cs => normalize_reg_name (String.mk cs))).map sizes)
        = some (sz, cls) :: tl := by
    cases hg : (((splitComma tag.text.data).map
        (fun cs => normalize_reg_name (String.mk cs))).map sizes) with
    | nil => rw [hg] at hhead; exact absurd hhead (by simp)
    | cons g0 tl =>
        rw [hg] at hhead
        simp only [List.head?_cons, Option.some.injEq] at hhead
        exact ⟨tl, by rw [hhead]⟩
  unfold extract_paramters
  rw [hsort, extractParamtersGo_skip_suppressed sizes pre (tag :: rest) [] hpre,
    extractParamtersGo_cons,
    if_neg (by rw [hsupp]; exact fun h => h rfl),
    if_neg (by rw [htype]; decide),
    if_neg (by rw [htype]; decide),
    if_pos htype, if_pos hagree, hcons]
  simp only [if_neg hncls, if_pos hmask, List.getLast?_nil]

theorem c10_opmask_empty_params_indexerror_witness :
    extract_paramters (fun r => if r = "ZMM0K1" then some (512, "ZMM") else none)
        [⟨0, 0, "reg", "ZMM0{K1}"⟩]
      = Except.error ParamError.indexError :=
  c10_opmask_empty_params_indexerror
    (fun r => if r = "ZMM0K1" then some (512, "ZMM") else none)
    [⟨0, 0, "reg", "ZMM0{K1}"⟩] [] [] ⟨0, 0, "reg", "ZMM0{K1}"⟩
    (by rfl) (by intro t ht; exact absurd ht (List.not_mem_nil t)) rfl rfl
    (by decide) (by decide) ⟨512, "ZMM", by decide, by decide⟩

/-- C4: evaluation of the code at the failing input.  The claim says that
exactly the latency sub-records carrying an explicit cycle count participate
in latency extraction.  Here the only measurement has one latency sub-record
with `cycles = 3` (and no `latency` attribute); the code's filter tests for
a `latency` attribute, so the sample is dropped and the produced entry's
latency is `none` instead of `3`. -/
theorem c4_latency_filter_behavior :
    extract_model (fun _ => none) "SKL"
        [⟨"BAR", [], [⟨"SKL", [⟨[("port1", 2)], [⟨[("cycles", 3)]⟩]⟩], []⟩]⟩]
      = Except.ok ([], [⟨"bar-", 2, none, [("1", 2)]⟩]) := by rfl

/-- C6: evaluation of the code at the failing input.  The claim says an
operand-normalization failure never terminates the run, even on the first
instruction processed.  Here the first (and only) instruction has an
unknown register operand (the UnrecognizedOperand `ValueError` is raised
and caught) and usable IACA data, so the loop body reaches
`build_variants(mnemonic, parameters)` with `parameters` never bound:
the run aborts with `UnboundLocalError`. -/
theorem c6_first_instruction_unbound_behavior :
    extract_model (fun _ => none) "SKL"
        [⟨"BAZ", [⟨0, 0, "reg", "QUUX"⟩], [⟨"SKL", [], [⟨[1, 0], [("port0", 1)]⟩]⟩]⟩]
      = Except.error RunError.unboundLocal := by rfl

/-- C1 counterexample: the claim says that an instruction whose latency
samples disagree still produces a reconciled entry (with its port-occupancy
vector) and is never excluded from the model.  Here the only instruction
has one measurement with two participating latency samples `2` and `3`;
the contradiction is reported, and the model table comes out empty: the
instruction is excluded entirely. -/
theorem c1_latency_contradiction_counterexample :
    extract_model (fun _ => none) "SKL"
        [⟨"FOO", [], [⟨"SKL", [⟨[("port0", 1)],
            [⟨[("latency", 1), ("cycles", 2)]⟩, ⟨[("latency", 1), ("cycles", 3)]⟩]⟩], []⟩]⟩]
      = Except.ok (["Contradicting latencies found: FOO"], []) := by rfl

theorem measLoop_cons (arch mn : String) (m : Measurement) (rest : List Measurement)
    (occs : List Occ) (lat : Option Int) (ign : Bool) (ds : List String) :
    measLoop arch mn (m :: rest) (occs, lat, ign, ds)
      = (match measurementLatencies m.latencyTags with
        | Except.error e => Except.error e
        | Except.ok lats =>
          if lats.drop 1 ≠ lats.dropLast then
            measLoop arch mn rest
              (occs ++ [port_occupancy_from_tag_attributes m.attrib arch], lat, true,
                ds ++ ["Contradicting latencies found: " ++ mn])
          else
            match lats with
            | [] => measLoop arch mn rest
                (occs ++ [port_occupancy_from_tag_attributes m.attrib arch], lat, ign, ds)
            | l0 :: _ => measLoop arch mn rest
                (occs ++ [port_occupancy_from_tag_attributes m.attrib arch],
                  some l0, ign, ds)) := rfl

theorem measLoop_ok (arch mn : String) :
    ∀ (ms : List Measurement) (occs : List Occ) (lat : Option Int) (ign : Bool)
      (ds : List String),
      (∀ m ∈ ms, ∃ l, measurementLatencies m.latencyTags = Except.ok l) →
      ∃ occs2 lat2 ign2 ds2,
        measLoop arch mn ms (occs, lat, ign, ds) = Except.ok (occs2, lat2, ign2, ds2)
        ∧ (ign = true → ign2 = true) ∧ (∀ x ∈ ds, x ∈ ds2) := by
  intro ms
  induction ms with
  | nil =>
      intro occs lat ign ds _
      exact ⟨occs, lat, ign, ds, rfl, fun h => h, fun x hx => hx⟩
  | cons m rest ih =>
      intro occs lat ign ds hall
      obtain ⟨lats, hl⟩ := hall m (List.mem_cons_self m rest)
      have hallr : ∀ m' ∈ rest, ∃ l, measurementLatencies m'.latencyTags = Except.ok l :=
        fun m' hm' => hall m' (List.mem_cons_of_mem m hm')
      by_cases hdis : lats.drop 1 ≠ lats.dropLast
      · rw [measLoop_cons, hl]
        simp only [if_pos hdis]
        obtain ⟨o2, l2, i2, d2, heq, hig, hds⟩ := ih _ lat true _ hallr
        exact ⟨o2, l2, i2, d2, heq, fun _ => hig rfl,
          fun x hx => hds x (List.mem_append_left _ hx)⟩
      · rw [measLoop_cons, hl]
        simp only [if_neg hdis]
        cases lats with
        | nil =>
            obtain ⟨o2, l2, i2, d2, heq, hig, hds⟩ := ih _ lat ign ds hallr
            exact ⟨o2, l2, i2, d2, heq, hig, hds⟩
        | cons l0 ls =>
            obtain ⟨o2, l2, i2, d2, heq, hig, hds⟩ := ih _ (some l0) ign ds hallr
            exact ⟨o2, l2, i2, d2, heq, hig, hds⟩

theorem measLoop_contra (arch mn : String) :
    ∀ (ms : List Measurement) (occs : List Occ) (lat : Option Int) (ds : List String),
      (∀ m ∈ ms, ∃ l, measurementLatencies m.latencyTags = Except.ok l) →
      (∃ m ∈ ms, ∃ lats, measurementLatencies m.latencyTags = Except.ok lats
          ∧ lats.drop 1 ≠ lats.dropLast) →
      ∃ occs2 lat2 ds2,
        measLoop arch mn ms (occs, lat, false, ds) = Except.ok (occs2, lat2, true, ds2)
        ∧ ("Contradicting latencies found: " ++ mn) ∈ ds2 := by
  intro ms
  induction ms with
  | nil =>
      intro occs lat ds _ hex
      obtain ⟨m, hm, _⟩ := hex
      exact absurd hm (List.not_mem_nil m)
  | cons m rest ih =>
      intro occs lat ds hall hex
      obtain ⟨lats, hl⟩ := hall m (List.mem_cons_self m rest)
      have hallr : ∀ m' ∈ rest, ∃ l, measurementLatencies m'.latencyTags = Except.ok l :=
        fun m' hm' => hall m' (List.mem_cons_of_mem m hm')
      by_cases hdis : lats.drop 1 ≠ lats.dropLast
      · rw [measLoop_cons, hl]
        simp only [if_pos hdis]
        obtain ⟨o2, l2, i2, d2, heq, hig, hds⟩ := measLoop_ok arch mn rest _ lat true _ hallr
        rw [hig rfl] at heq
        exact ⟨o2, l2, d2, heq,
          hds _ (List.mem_append_right _ (List.mem_singleton_self _))⟩
      · have hexr : ∃ m' ∈ rest, ∃ lats',
            measurementLatencies m'.latencyTags = Except.ok lats'
              ∧ lats'.drop 1 ≠ lats'.dropLast := by
          obtain ⟨m', hm', lats', hl', hdis'⟩ := hex
          rcases List.mem_cons.mp hm' with rfl | hmr
          · rw [hl] at hl'
            cases hl'
            exact absurd hdis' hdis
          · exact ⟨m', hmr, lats', hl', hdis'⟩
        rw [measLoop_cons, hl]
        simp only [if_neg hdis]
        cases lats with
        | nil => exact ih _ lat ds hallr hexr
        | cons l0 ls => exact ih _ (some l0) ds hallr hexr

theorem extractModelGo_nil (sizes : String → Option (Nat × String)) (arch : String)
    (params : Option (List String)) (diags : List String) (rows : List Entry) :
    extractModelGo sizes arch [] params diags rows = Except.ok (diags, rows) := rfl

theorem extractModelGo_cons (sizes : String → Option (Nat × String)) (arch : String)
    (inst : Instruction) (rest : List Instruction)
    (params : Option (List String)) (diags : List String) (rows : List Entry) :
    extractModelGo sizes arch (inst :: rest) params diags rows
      = (match instStep sizes arch inst params diags with
        | Except.error e => Except.error e
        | Except.ok (params2, diags2, newRows) =>
            extractModelGo sizes arch rest params2 diags2 (rows ++ newRows)) := rfl

/-- C1 amended: a latency contradiction inside a measurement record is
reported on the diagnostic stream, but it causes the instruction to be
excluded from the model entirely (the `ignore` flag skips the instruction):
no reconciled entry is produced for it, its port-occupancy vector included.
(Stated for a one-instruction document so that "excluded" is visible as an
empty model table.) -/
theorem c1_latency_contradiction_amended (sizes : String → Option (Nat × String))
    (arch : String) (inst : Instruction) (archTag : ArchTag)
    (hp : extract_paramters sizes inst.operands ≠ Except.error ParamError.indexError)
    (ha : inst.archs.find? (fun a => a.name == arch) = some archTag)
    (hall : ∀ m ∈ archTag.measurements, ∃ l,
        measurementLatencies m.latencyTags = Except.ok l)
    (hdis : ∃ m ∈ archTag.measurements, ∃ lats,
        measurementLatencies m.latencyTags = Except.ok lats
          ∧ lats.drop 1 ≠ lats.dropLast) :
    ∃ ds, extract_model sizes arch [inst] = Except.ok (ds, [])
      ∧ ("Contradicting latencies found: " ++ inst.asm) ∈ ds := by
  have harch : ∀ (params : Option (List String)) (diags : List String),
      ∃ ds, instStepArch arch inst params diags = Except.ok (params, ds, [])
        ∧ ("Contradicting latencies found: " ++ inst.asm) ∈ ds := by
    intro params diags
    obtain ⟨o2, l2, d2, heq, hmem⟩ :=
      measLoop_contra arch inst.asm archTag.measurements [] none diags hall hdis
    have hrec : reconcile arch inst.asm archTag diags = Except.ok (d2, none) := by
      unfold reconcile
      rw [heq]
      rfl
    refine ⟨d2, ?_, hmem⟩
    unfold instStepArch
    rw [ha]
    show (match reconcile arch inst.asm archTag diags with
      | Except.error e => Except.error e
      | Except.ok (ds, none) => Except.ok (params, ds, [])
      | Except.ok (ds, some (tp, lat, occv)) =>
        match params with
        | none => Except.error RunError.unboundLocal
        | some ps =>
          Except.ok (params, ds,
            (build_variants inst.asm ps).map (fun mp =>
              Entry.mk (strLower mp.1 ++ "-" ++ joinUnderscore mp.2) tp lat occv)))
      = Except.ok (params, d2, [])
    rw [hrec]
  unfold extract_model
  rw [extractModelGo_cons]
  cases hpr : extract_paramters sizes inst.operands with
  | error e =>
      cases e with
      | valueError msg =>
          have hstep' : instStep sizes arch inst none []
              = instStepArch arch inst none ([] ++ [msg]) := by
            unfold instStep
            rw [hpr]
          obtain ⟨ds, hstep, hmem⟩ := harch none ([] ++ [msg])
          rw [hstep', hstep]
          exact ⟨ds, rfl, hmem⟩
      | indexError => exact absurd hpr hp
  | ok ps =>
      have hstep' : instStep sizes arch inst none []
          = instStepArch arch inst (some ps) [] := by
        unfold instStep
        rw [hpr]
      obtain ⟨ds, hstep, hmem⟩ := harch (some ps) []
      rw [hstep', hstep]
      exact ⟨ds, rfl, hmem⟩

theorem c1_latency_contradiction_amended_witness :
    ∃ ds, extract_model (fun _ => none) "SKL"
        [⟨"FOO", [], [⟨"SKL", [⟨[("port0", 1)],
            [⟨[("latency", 1), ("cycles", 2)]⟩, ⟨[("latency", 1), ("cycles", 3)]⟩]⟩], []⟩]⟩]
      = Except.ok (ds, [])
      ∧ ("Contradicting latencies found: " ++ "FOO") ∈ ds :=
  c1_latency_contradiction_amended (fun _ => none) "SKL"
    ⟨"FOO", [], [⟨"SKL", [⟨[("port0", 1)],
        [⟨[("latency", 1), ("cycles", 2)]⟩, ⟨[("latency", 1), ("cycles", 3)]⟩]⟩], []⟩]⟩
    ⟨"SKL", [⟨[("port0", 1)],
        [⟨[("latency", 1), ("cycles", 2)]⟩, ⟨[("latency", 1), ("cycles", 3)]⟩]⟩], []⟩
    (fun h => Except.noConfusion h)
    rfl
    (fun m hm => by
      rcases List.mem_singleton.mp hm with rfl
      exact ⟨[2, 3], rfl⟩)
    ⟨⟨[("port0", 1)],
        [⟨[("latency", 1), ("cycles", 2)]⟩, ⟨[("latency", 1), ("cycles", 3)]⟩]⟩,
      List.mem_singleton_self _, [2, 3], rfl, by decide⟩

theorem measLoop_occs (arch mn : String) :
    ∀ (ms : List Measurement) (occs0 : List Occ) (lat : Option Int) (ign : Bool)
      (ds : List String) (occs2 : List Occ) (lat2 : Option Int) (ign2 : Bool)
      (ds2 : List String),
      measLoop arch mn ms (occs0, lat, ign, ds) = Except.ok (occs2, lat2, ign2, ds2) →
      occs2 = occs0 ++ ms.map (fun m => port_occupancy_from_tag_attributes m.attrib arch) := by
  intro ms
  induction ms with
  | nil =>
      intro occs0 lat ign ds occs2 lat2 ign2 ds2 h
      cases h
      simp
  | cons m rest ih =>
      intro occs0 lat ign ds occs2 lat2 ign2 ds2 h
      rw [measLoop_cons] at h
      cases hl : measurementLatencies m.latencyTags with
      | error e => rw [hl] at h; cases h
      | ok lats =>
          rw [hl] at h
          by_cases hdis : lats.drop 1 ≠ lats.dropLast
          · simp only [if_pos hdis] at h
            rw [ih _ _ _ _ _ _ _ _ h]
            simp
          · simp only [if_neg hdis] at h
            cases lats with
            | nil =>
                rw [ih _ _ _ _ _ _ _ _ h]
                simp
            | cons l0 ls =>
                rw [ih _ _ _ _ _ _ _ _ h]
                simp

/-- C2: for an instruction whose collected port-occupancy vectors (one per
measurement record in document order, then one per IACA record in ascending
tool-version order) disagree, the reconciler reports a contradiction on the
diagnostic stream and takes the last vector of that ordered sequence as the
authoritative vector of every produced entry; in particular the highest
analyzer-tool version wins. -/
theorem c2_port_contradiction_last_wins (sizes : String → Option (Nat × String))
    (arch : String) (inst : Instruction) (archTag : ArchTag)
    (ps : List String) (occs : List Occ) (lat : Option Int) (ds : List String)
    (hp : extract_paramters sizes inst.operands = Except.ok ps)
    (ha : inst.archs.find? (fun a => a.name == arch) = some archTag)
    (hm : measLoop arch inst.asm archTag.measurements ([], none, false, [])
        = Except.ok (occs, lat, false, ds))
    (hne : occs ++ (sortIacas archTag.iacas).map
        (fun i => port_occupancy_from_tag_attributes i.attrib arch) ≠ [])
    (hdis : (occs ++ (sortIacas archTag.iacas).map
          (fun i => port_occupancy_from_tag_attributes i.attrib arch)).drop 1
        ≠ (occs ++ (sortIacas archTag.iacas).map
          (fun i => port_occupancy_from_tag_attributes i.attrib arch)).dropLast) :
    occs = archTag.measurements.map
        (fun m => port_occupancy_from_tag_attributes m.attrib arch)
    ∧ ∃ lastv,
        (occs ++ (sortIacas archTag.iacas).map
          (fun i => port_occupancy_from_tag_attributes i.attrib arch)).getLast?
          = some lastv
        ∧ extract_model sizes arch [inst]
          = Except.ok
              (ds ++ ["Contradicting port occupancies, using latest IACA: " ++ inst.asm],
                (build_variants inst.asm ps).map (fun mp =>
                  Entry.mk (strLower mp.1 ++ "-" ++ joinUnderscore mp.2)
                    (maxOcc lastv) lat lastv)) := by
  refine ⟨(by simpa using (measLoop_occs arch inst.asm archTag.measurements
      [] none false [] occs lat false ds hm)), ?_⟩
  obtain ⟨lastv, hlast⟩ : ∃ lastv,
      (occs ++ (sortIacas archTag.iacas).map
        (fun i => port_occupancy_from_tag_attributes i.attrib arch)).getLast?
        = some lastv := by
    cases h : (occs ++ (sortIacas archTag.iacas).map
        (fun i => port_occupancy_from_tag_attributes i.attrib arch)).getLast? with
    | none => exact absurd (List.getLast?_eq_none_iff.mp h) hne
    | some lastv => exact ⟨lastv, rfl⟩
  refine ⟨lastv, hlast, ?_⟩
  have hrec : reconcile arch inst.asm archTag []
      = Except.ok
          (ds ++ ["Contradicting port occupancies, using latest IACA: " ++ inst.asm],
            some (maxOcc lastv, lat, lastv)) := by
    unfold reconcile
    rw [hm]
    show (match (occs ++ (sortIacas archTag.iacas).map
        (fun i => port_occupancy_from_tag_attributes i.attrib arch)).getLast? with
      | none => Except.ok (ds, none)
      | some lastv =>
        Except.ok
          (if (occs ++ (sortIacas archTag.iacas).map
                (fun i => port_occupancy_from_tag_attributes i.attrib arch)).drop 1
              ≠ (occs ++ (sortIacas archTag.iacas).map
                (fun i => port_occupancy_from_tag_attributes i.attrib arch)).dropLast
            then ds ++ ["Contradicting port occupancies, using latest IACA: " ++ inst.asm]
            else ds,
            some (maxOcc lastv, lat, lastv)))
      = Except.ok
          (ds ++ ["Contradicting port occupancies, using latest IACA: " ++ inst.asm],
            some (maxOcc lastv, lat, lastv))
    rw [hlast, if_pos hdis]
  have hstep' : instStep sizes arch inst none []
      = instStepArch arch inst (some ps) [] := by
    unfold instStep
    rw [hp]
  have hstep : instStepArch arch inst (some ps) []
      = Except.ok (some ps,
          ds ++ ["Contradicting port occupancies, using latest IACA: " ++ inst.asm],
          (build_variants inst.asm ps).map (fun mp =>
            Entry.mk (strLower mp.1 ++ "-" ++ joinUnderscore mp.2)
              (maxOcc lastv) lat lastv)) := by
    unfold instStepArch
    rw [ha]
    show (match reconcile arch inst.asm archTag [] with
      | Except.error e => Except.error e
      | Except.ok (ds, none) => Except.ok (some ps, ds, [])
      | Except.ok (ds, some (tp, lat, occv)) =>
        Except.ok (some ps, ds,
          (build_variants inst.asm ps).map (fun mp =>
            Entry.mk (strLower mp.1 ++ "-" ++ joinUnderscore mp.2) tp lat occv)))
      = Except.ok (some ps,
          ds ++ ["Contradicting port occupancies, using latest IACA: " ++ inst.asm],
          (build_variants inst.asm ps).map (fun mp =>
            Entry.mk (strLower mp.1 ++ "-" ++ joinUnderscore mp.2)
              (maxOcc lastv) lat lastv))
    rw [hrec]
  unfold extract_model
  rw [extractModelGo_cons, hstep', hstep]
  rfl

theorem c2_port_contradiction_last_wins_witness :
    extract_model (fun _ => none) "SKL"
        [⟨"VFOO", [], [⟨"SKL", [], [⟨[2, 1], [("port0", 2)]⟩, ⟨[2, 0], [("port0", 4)]⟩]⟩]⟩]
      = Except.ok (["Contradicting port occupancies, using latest IACA: " ++ "VFOO"],
          [⟨"vfoo-", 2, none, [("0", 2)]⟩]) := by
  obtain ⟨-, lastv, hlast, hrun⟩ := c2_port_contradiction_last_wins (fun _ => none) "SKL"
    ⟨"VFOO", [], [⟨"SKL", [], [⟨[2, 1], [("port0", 2)]⟩, ⟨[2, 0], [("port0", 4)]⟩]⟩]⟩
    ⟨"SKL", [], [⟨[2, 1], [("port0", 2)]⟩, ⟨[2, 0], [("port0", 4)]⟩]⟩
    [] [] none [] rfl rfl rfl (by decide) (by decide)
  have h2 : (([] : List Occ)
      ++ (sortIacas [⟨[2, 1], [("port0", 2)]⟩, ⟨[2, 0], [("port0", 4)]⟩]).map
        (fun i => port_occupancy_from_tag_attributes i.attrib "SKL")).getLast?
      = some (port_occupancy_from_tag_attributes [("port0", 2)] "SKL") := by rfl
  rw [h2] at hlast
  have hv : lastv = port_occupancy_from_tag_attributes [("port0", 2)] "SKL" :=
    (Option.some.inj hlast).symm
  subst hv
  rw [hrun]
  rfl

theorem foldl_qmax_init_le (l : List ℚ) : ∀ a : ℚ, a ≤ l.foldl qmax a := by
  induction l with
  | nil => intro a; exact le_refl a
  | cons x xs ih =>
      intro a
      rw [List.foldl_cons]
      exact le_trans (by rw [qmax_eq_max]; exact le_max_left a x) (ih (qmax a x))

theorem foldl_qmax_mem_le (l : List ℚ) : ∀ (a x : ℚ), x ∈ l → x ≤ l.foldl qmax a := by
  induction l with
  | nil => intro a x hx; exact absurd hx (List.not_mem_nil x)
  | cons y ys ih =>
      intro a x hx
      rw [List.foldl_cons]
      rcases List.mem_cons.mp hx with rfl | hmem
      · exact le_trans (by rw [qmax_eq_max]; exact le_max_right a x)
          (foldl_qmax_init_le ys (qmax a x))
      · exact ih (qmax a y) x hmem

theorem foldl_qmax_eq_init_or_mem (l : List ℚ) :
    ∀ a : ℚ, l.foldl qmax a = a ∨ l.foldl qmax a ∈ l := by
  induction l with
  | nil => intro a; exact Or.inl rfl
  | cons x xs ih =>
      intro a
      rw [List.foldl_cons]
      rcases ih (qmax a x) with h | h
      · rw [h]
        unfold qmax
        by_cases hlt : a < x
        · rw [if_pos hlt]; exact Or.inr (List.mem_cons_self x xs)
        · rw [if_neg hlt]; exact Or.inl rfl
      · exact Or.inr (List.mem_cons_of_mem x h)

theorem maxOcc_cons (p : String × ℚ) (ps : Occ) :
    maxOcc (p :: ps) = (ps.map Prod.snd ++ [0]).foldl qmax p.2 := rfl

theorem maxOcc_ub (o : Occ) : ∀ kv ∈ o, kv.2 ≤ maxOcc o := by
  cases o with
  | nil => intro kv hkv; exact absurd hkv (List.not_mem_nil kv)
  | cons p ps =>
      intro kv hkv
      rw [maxOcc_cons]
      rcases List.mem_cons.mp hkv with rfl | hmem
      · exact foldl_qmax_init_le _ _
      · exact foldl_qmax_mem_le _ _ _
          (List.mem_append_left [0] (List.mem_map_of_mem Prod.snd hmem))

theorem maxOcc_zero_or_mem (o : Occ) :
    maxOcc o = 0 ∨ ∃ kv ∈ o, kv.2 = maxOcc o := by
  cases o with
  | nil => exact Or.inl rfl
  | cons p ps =>
      rw [maxOcc_cons]
      rcases foldl_qmax_eq_init_or_mem (ps.map Prod.snd ++ [0]) p.2 with h | h
      · exact Or.inr ⟨p, List.mem_cons_self p ps, h.symm⟩
      · rcases List.mem_append.mp h with hm | hm
        · obtain ⟨kv, hkv, hv⟩ := List.mem_map.mp hm
          exact Or.inr ⟨kv, List.mem_cons_of_mem p hkv, hv⟩
        · exact Or.inl (List.mem_singleton.mp hm)

theorem reconcile_entry_tp (arch mn : String) (archTag : ArchTag) (ds ds2 : List String)
    (tp : ℚ) (lat : Option Int) (occv : Occ)
    (h : reconcile arch mn archTag ds = Except.ok (ds2, some (tp, lat, occv))) :
    tp = maxOcc occv := by
  unfold reconcile at h
  split at h
  · exact absurd h (by simp)
  · split at h
    · simp only [Except.ok.injEq, Prod.mk.injEq] at h
      exact absurd h.2 (by simp)
    · dsimp only [] at h
      split at h
      · simp only [Except.ok.injEq, Prod.mk.injEq] at h
        exact absurd h.2 (by simp)
      · simp only [Except.ok.injEq, Prod.mk.injEq, Option.some.injEq] at h
        obtain ⟨-, htp, -, hocc⟩ := h
        rw [← htp, ← hocc]

theorem instStepArch_rows_tp (arch : String) (inst : Instruction)
    (params p2 : Option (List String)) (diags d2 : List String) (newRows : List Entry)
    (h : instStepArch arch inst params diags = Except.ok (p2, d2, newRows)) :
    ∀ r ∈ newRows, r.tp = maxOcc r.occ := by
  unfold instStepArch at h
  split at h
  · cases h
    intro r hr
    exact absurd hr (List.not_mem_nil r)
  · split at h
    · cases h
    · cases h
      intro r hr
      exact absurd hr (List.not_mem_nil r)
    · split at h
      · cases h
      · cases h
        intro r hr
        obtain ⟨mp, -, rfl⟩ := List.mem_map.mp hr
        exact reconcile_entry_tp arch inst.asm _ diags _ _ _ _ (by assumption)

theorem instStep_rows_tp (sizes : String → Option (Nat × String)) (arch : String)
    (inst : Instruction) (params p2 : Option (List String)) (diags d2 : List String)
    (newRows : List Entry)
    (h : instStep sizes arch inst params diags = Except.ok (p2, d2, newRows)) :
    ∀ r ∈ newRows, r.tp = maxOcc r.occ := by
  unfold instStep at h
  split at h
  · cases h
  · exact instStepArch_rows_tp arch inst params p2 _ d2 newRows h
  · exact instStepArch_rows_tp arch inst _ p2 diags d2 newRows h

theorem extractModelGo_tp_inv (sizes : String → Option (Nat × String)) (arch : String) :
    ∀ (insts : List Instruction) (params : Option (List String)) (diags : List String)
      (rows0 : List Entry) (dsf : List String) (rows : List Entry),
      extractModelGo sizes arch insts params diags rows0 = Except.ok (dsf, rows) →
      (∀ r ∈ rows0, r.tp = maxOcc r.occ) → ∀ r ∈ rows, r.tp = maxOcc r.occ := by
  intro insts
  induction insts with
  | nil =>
      intro params diags rows0 dsf rows h h0
      rw [extractModelGo_nil] at h
      simp only [Except.ok.injEq, Prod.mk.injEq] at h
      rw [← h.2]
      exact h0
  | cons inst rest ih =>
      intro params diags rows0 dsf rows h h0
      rw [extractModelGo_cons] at h
      cases hs : instStep sizes arch inst params diags with
      | error e => rw [hs] at h; cases h
      | ok t =>
          obtain ⟨p2, d2, nr⟩ := t
          rw [hs] at h
          refine ih p2 d2 (rows0 ++ nr) dsf rows h ?_
          intro r hr
          rcases List.mem_append.mp hr with hr0 | hrn
          · exact h0 r hr0
          · exact instStep_rows_tp sizes arch inst params p2 diags d2 nr hs r hrn

/-- C3: every reconciled entry placed in the model table has a throughput
equal to the maximum occupancy value across all ports of its authoritative
port-occupancy vector, with floor 0 (in particular 0 when the vector is
empty); throughput is derived from the vector, never taken from a measured
field. -/
theorem c3_throughput_derived (sizes : String → Option (Nat × String)) (arch : String)
    (insts : List Instruction) (dsf : List String) (rows : List Entry)
    (h : extract_model sizes arch insts = Except.ok (dsf, rows)) :
    ∀ r ∈ rows, (r.occ = [] → r.tp = 0)
      ∧ (∀ kv ∈ r.occ, kv.2 ≤ r.tp)
      ∧ (r.tp = 0 ∨ ∃ kv ∈ r.occ, kv.2 = r.tp) := by
  intro r hr
  have htp : r.tp = maxOcc r.occ :=
    extractModelGo_tp_inv sizes arch insts none [] [] dsf rows h
      (fun r hr => absurd hr (List.not_mem_nil r)) r hr
  refine ⟨?_, ?_, ?_⟩
  · intro hocc
    rw [htp, hocc]
    rfl
  · intro kv hkv
    rw [htp]
    exact maxOcc_ub r.occ kv hkv
  · rw [htp]
    exact maxOcc_zero_or_mem r.occ

theorem c3_throughput_derived_witness :
    (([("0", (2 : ℚ))] : Occ) = [] → (2 : ℚ) = 0)
    ∧ (∀ kv ∈ ([("0", (2 : ℚ))] : Occ), kv.2 ≤ (2 : ℚ))
    ∧ ((2 : ℚ) = 0 ∨ ∃ kv ∈ ([("0", (2 : ℚ))] : Occ), kv.2 = (2 : ℚ)) :=
  c3_throughput_derived (fun _ => none) "SKL"
    [⟨"ADD", [], [⟨"SKL", [], [⟨[1, 0], [("port0", 2)]⟩]⟩]⟩] []
    [⟨"add-", 2, none, [("0", 2)]⟩] rfl
    ⟨"add-", 2, none, [("0", 2)]⟩ (List.mem_singleton_self _)

theorem stripOpmaskL_len : ∀ l, (stripOpmaskL l).length ≤ l.length
    ∧ (hasOpmaskL l = true → (stripOpmaskL l).length < l.length) := by
  intro l
  induction l using stripOpmaskL.induct with
  | case1 rest hnm =>
      rw [stripOpmaskL]
      constructor
      · simp
        omega
      · intro _
        simp
        omega
  | case2 c rest hnm ih =>
      constructor
      · rw [stripOpmaskL]
        · simp
          omega
        · exact hnm
      · intro h
        rw [hasOpmaskL] at h
        · rw [stripOpmaskL]
          · have := ih.2 h
            simp
            omega
          · exact hnm
        · exact hnm
  | case3 => simp [stripOpmaskL, hasOpmaskL]

theorem stripOpmask_ne (p : String) (h : hasOpmask p = true) : stripOpmask p ≠ p := by
  intro he
  have hd : stripOpmaskL p.data = p.data := congrArg String.data he
  have hl := (stripOpmaskL_len p.data).2 h
  rw [hd] at hl
  omega

theorem map_eq_self_mem {α : Type} (f : α → α) :
    ∀ (l : List α), l.map f = l → ∀ x ∈ l, f x = x := by
  intro l
  induction l with
  | nil => intro _ x hx; exact absurd hx (List.not_mem_nil x)
  | cons y ys ih =>
      intro h x hx
      rw [List.map_cons] at h
      have h1 : f y = y := (List.cons.injEq _ _ _ _ ▸ h).1
      have h2 : ys.map f = ys := (List.cons.injEq _ _ _ _ ▸ h).2
      rcases List.mem_cons.mp hx with rfl | hmem
      · exact h1
      · exact ih h2 x hmem

theorem all_or_false_iff (l : List String) (reg : String) :
    all_or_false (l.map (fun p => p == reg)) = true ↔ l ≠ [] ∧ ∀ p ∈ l, p = reg := by
  unfold all_or_false
  cases l with
  | nil => simp
  | cons x xs =>
      rw [if_neg (by simp)]
      constructor
      · intro h
        refine ⟨by simp, ?_⟩
        intro p hp
        have := List.all_eq_true.mp h (p == reg) (List.mem_map_of_mem _ hp)
        simpa using this
      · intro h
        apply List.all_eq_true.mpr
        intro b hb
        obtain ⟨p, hp, rfl⟩ := List.mem_map.mp hb
        simpa using h.2 p hp

theorem append_singleton_ne (x s : String) (hs : s.data.length = 1) : x ++ s ≠ x := by
  intro h
  have hl := congrArg (fun t => t.data.length) h
  simp only [String.data_append, List.length_append, hs] at hl
  omega

/-- C8 counterexample: the claim says `mnemonic+S` is yielded exactly when
the mnemonic does not end with `S` and every non-memory, non-immediate
token equals that width's register token.  For `MOV` with parameter list
`[mem]` that condition holds vacuously for suffix `Q` (there is no
non-memory, non-immediate token), yet no suffixed variant is yielded:
`build_variants` additionally requires at least one such token. -/
theorem c8_variants_counterexample :
    ((["mem"] : List String).filter (fun p => ¬ (p = "mem" ∨ p = "imd"))).all
        (fun p => p == "r64") = true
    ∧ strEndsWith (strUpper "MOV") "Q" = false
    ∧ ("MOVQ", (["mem"] : List String)) ∉ build_variants "MOV" ["mem"] := by
  decide

/-- C8 amended: `build_variants` yields exactly (1) the uppercased input
pair unchanged, (2) when some token carries an opmask marker, the same
mnemonic with every opmask marker stripped, and (3) for each width suffix
in Q, L, W, B whose register token matches, the suffixed mnemonic with the
parameter list unchanged — where "matches" requires the mnemonic not to
already end in the suffix, the list of non-memory, non-immediate tokens to
be nonempty, and every such token to equal that width's register token;
and it never yields a width-suffixed form of the opmask-stripped variant. -/
theorem c8_variants_amended (m : String) (ps : List String) :
    (∀ (m' : String) (ps' : List String),
      (m', ps') ∈ build_variants m ps ↔
        (m' = strUpper m ∧ ps' = ps)
        ∨ (ps.any (fun p => hasOpmask p) = true ∧ m' = strUpper m
            ∧ ps' = ps.map (fun p => stripOpmask p))
        ∨ (∃ sr ∈ ([("Q", "r64"), ("L", "r32"), ("W", "r16"), ("B", "r8")] :
              List (String × String)),
            m' = strUpper m ++ sr.1 ∧ ps' = ps
            ∧ strEndsWith (strUpper m) sr.1 = false
            ∧ ps.filter (fun p => ¬ (p = "mem" ∨ p = "imd")) ≠ []
            ∧ ∀ p ∈ ps.filter (fun p => ¬ (p = "mem" ∨ p = "imd")), p = sr.2))
    ∧ (ps.any (fun p => hasOpmask p) = true →
        ∀ s ∈ (["Q", "L", "W", "B"] : List String),
          (strUpper m ++ s, ps.map (fun p => stripOpmask p)) ∉ build_variants m ps) := by
  have hiff : ∀ (m' : String) (ps' : List String),
      (m', ps') ∈ build_variants m ps ↔
        (m' = strUpper m ∧ ps' = ps)
        ∨ (ps.any (fun p => hasOpmask p) = true ∧ m' = strUpper m
            ∧ ps' = ps.map (fun p => stripOpmask p))
        ∨ (∃ sr ∈ ([("Q", "r64"), ("L", "r32"), ("W", "r16"), ("B", "r8")] :
              List (String × String)),
            m' = strUpper m ++ sr.1 ∧ ps' = ps
            ∧ strEndsWith (strUpper m) sr.1 = false
            ∧ ps.filter (fun p => ¬ (p = "mem" ∨ p = "imd")) ≠ []
            ∧ ∀ p ∈ ps.filter (fun p => ¬ (p = "mem" ∨ p = "imd")), p = sr.2) := by
    intro m' ps'
    unfold build_variants
    constructor
    · intro h
      rcases List.mem_append.mp h with h | h
      · rcases List.mem_append.mp h with h | h
        · rcases List.mem_singleton.mp h with h
          exact Or.inl ⟨congrArg Prod.fst h, congrArg Prod.snd h⟩
        · by_cases hop : ps.any (fun p => hasOpmask p) = true
          · rw [if_pos hop] at h
            rcases List.mem_singleton.mp h with h
            exact Or.inr (Or.inl
              ⟨hop, congrArg Prod.fst h, congrArg Prod.snd h⟩)
          · rw [if_neg hop] at h
            exact absurd h (List.not_mem_nil _)
      · obtain ⟨sr, hsr, heq⟩ := List.mem_filterMap.mp h
        obtain ⟨hcond, hsome⟩ := Option.ite_none_right_eq_some.mp heq
        obtain ⟨hm', hps'⟩ : strUpper m ++ sr.1 = m' ∧ ps = ps' := by
          have := Option.some.inj hsome
          exact ⟨congrArg Prod.fst this, congrArg Prod.snd this⟩
        obtain ⟨hend, hall⟩ := hcond
        obtain ⟨hne2, hreg⟩ := (all_or_false_iff _ sr.2).mp hall
        exact Or.inr (Or.inr ⟨sr, hsr, hm'.symm, hps'.symm,
          Bool.eq_false_iff.mpr hend, hne2, hreg⟩)
    · intro h
      rcases h with ⟨h1, h2⟩ | ⟨hop, h1, h2⟩ | ⟨sr, hsr, hm', hps', hend, hne2, hreg⟩
      · subst h1; subst h2
        exact List.mem_append.mpr (Or.inl (List.mem_append.mpr
          (Or.inl (List.mem_singleton_self _))))
      · subst h1; subst h2
        refine List.mem_append.mpr (Or.inl (List.mem_append.mpr (Or.inr ?_)))
        rw [if_pos hop]
        exact List.mem_singleton_self _
      · subst hm'; subst hps'
        refine List.mem_append.mpr (Or.inr ?_)
        refine List.mem_filterMap.mpr ⟨sr, hsr, ?_⟩
        rw [if_pos ⟨Bool.eq_false_iff.mp hend, (all_or_false_iff _ sr.2).mpr ⟨hne2, hreg⟩⟩]
  refine ⟨hiff, ?_⟩
  intro hop s hs hmem
  obtain ⟨p0, hp0, hhas⟩ := List.any_eq_true.mp hop
  have hne : ps.map (fun p => stripOpmask p) ≠ ps := fun he =>
    stripOpmask_ne p0 hhas (map_eq_self_mem _ ps he p0 hp0)
  have hs1 : s.data.length = 1 := by
    simp only [List.mem_cons, List.not_mem_nil, or_false] at hs
    rcases hs with rfl | rfl | rfl | rfl <;> rfl
  have hmne : strUpper m ++ s ≠ strUpper m := append_singleton_ne _ s hs1
  rcases (hiff _ _).mp hmem with ⟨h1, -⟩ | ⟨-, h1, -⟩ | ⟨sr, -, -, hps', -⟩
  · exact hmne h1
  · exact hmne h1
  · exact hne hps'

theorem c8_variants_amended_witness :
    ("VADDPS", ["zmm", "zmm", "zmm"])
        ∈ build_variants "VADDPS" ["zmm", "zmm", "zmm{opmask}"]
    ∧ ("VADDPSQ", ["zmm", "zmm", "zmm"])
        ∉ build_variants "VADDPS" ["zmm", "zmm", "zmm{opmask}"]
    ∧ ("MOVL", ["r32", "r32"]) ∈ build_variants "MOV" ["r32", "r32"]
    ∧ ("MOVQ", ["r32", "r32"]) ∉ build_variants "MOV" ["r32", "r32"] :=
  ⟨((c8_variants_amended "VADDPS" ["zmm", "zmm", "zmm{opmask}"]).1 _ _).mpr
      (Or.inr (Or.inl (by decide))),
   (c8_variants_amended "VADDPS" ["zmm", "zmm", "zmm{opmask}"]).2 (by decide)
      "Q" (by decide),
   ((c8_variants_amended "MOV" ["r32", "r32"]).1 _ _).mpr
      (Or.inr (Or.inr ⟨("L", "r32"), by decide, rfl, rfl, by decide, by decide,
        by decide⟩)),
   fun h => by
     rcases ((c8_variants_amended "MOV" ["r32", "r32"]).1 _ _).mp h with
       ⟨h1, -⟩ | ⟨h1, -⟩ | ⟨sr, hsr, h1, -, -, -, hreg⟩
     · exact absurd h1 (by decide)
     · exact absurd h1 (by decide)
     · simp only [List.mem_cons, List.not_mem_nil, or_false] at hsr
       rcases hsr with rfl | rfl | rfl | rfl
       · exact absurd (hreg "r32" (by decide)) (by decide)
       · exact absurd h1 (by decide)
       · exact absurd h1 (by decide)
       · exact absurd h1 (by decide)⟩

theorem insertAt_length : ∀ (l : List String) (n : Nat) (x : String),
    (insertAt l n x).length = l.length + 1 := by
  intro l
  induction l with
  | nil =>
      intro n x
      cases n with
      | zero => rfl
      | succ n => rfl
  | cons y ys ih =>
      intro n x
      cases n with
      | zero => rfl
      | succ n =>
          show (y :: insertAt ys n x).length = (y :: ys).length + 1
          simp only [List.length_cons, ih n x]

theorem insertAt_mem : ∀ (l : List String) (n : Nat) (x p : String),
    p ∈ insertAt l n x ↔ p = x ∨ p ∈ l := by
  intro l
  induction l with
  | nil =>
      intro n x p
      cases n with
      | zero => simp [insertAt]
      | succ n => simp [insertAt]
  | cons y ys ih =>
      intro n x p
      cases n with
      | zero => simp [insertAt]
      | succ n =>
          show p ∈ y :: insertAt ys n x ↔ _
          rw [List.mem_cons, ih n x p]
          constructor
          · rintro (rfl | h | h)
            · exact Or.inr (List.mem_cons_self _ _)
            · exact Or.inl h
            · exact Or.inr (List.mem_cons_of_mem y h)
          · rintro (h | h)
            · exact Or.inr (Or.inl h)
            · rcases List.mem_cons.mp h with rfl | h
              · exact Or.inl rfl
              · exact Or.inr (Or.inr h)

theorem indexOf?_of_mem : ∀ (l : List String) (x : String), x ∈ l →
    ∃ i, indexOf? x l = some i := by
  intro l
  induction l with
  | nil => intro x hx; exact absurd hx (List.not_mem_nil x)
  | cons y ys ih =>
      intro x hx
      unfold indexOf?
      by_cases hyx : y = x
      · exact ⟨0, by rw [if_pos (beq_iff_eq.mpr hyx)]⟩
      · rcases List.mem_cons.mp hx with rfl | hmem
        · exact absurd rfl hyx
        · obtain ⟨i, hi⟩ := ih x hmem
          refine ⟨i + 1, ?_⟩
          rw [if_neg (by simpa using hyx), hi]
          rfl

theorem foldl_max_init_le_int (l : List Int) : ∀ a : Int, a ≤ l.foldl max a := by
  induction l with
  | nil => intro a; exact le_refl a
  | cons x xs ih =>
      intro a
      rw [List.foldl_cons]
      exact le_trans (le_max_left a x) (ih (max a x))

theorem foldl_max_mem_le_int (l : List Int) : ∀ (a x : Int), x ∈ l → x ≤ l.foldl max a := by
  induction l with
  | nil => intro a x hx; exact absurd hx (List.not_mem_nil x)
  | cons y ys ih =>
      intro a x hx
      rw [List.foldl_cons]
      rcases List.mem_cons.mp hx with rfl | hmem
      · exact le_trans (le_max_right a x) (foldl_max_init_le_int ys (max a x))
      · exact ih (max a y) x hmem

theorem foldl_max_init_or_mem_int (l : List Int) :
    ∀ a : Int, l.foldl max a = a ∨ l.foldl max a ∈ l := by
  induction l with
  | nil => intro a; exact Or.inl rfl
  | cons x xs ih =>
      intro a
      rw [List.foldl_cons]
      rcases ih (max a x) with h | h
      · rw [h]
        rcases max_choice a x with h2 | h2
        · exact Or.inl h2
        · rw [h2]; exact Or.inr (List.mem_cons_self x xs)
      · exact Or.inr (List.mem_cons_of_mem x h)

theorem listMaxInt_ub (l : List Int) : ∀ x ∈ l, x ≤ listMaxInt l := by
  cases l with
  | nil => intro x hx; exact absurd hx (List.not_mem_nil x)
  | cons y ys =>
      intro x hx
      show x ≤ ys.foldl max y
      rcases List.mem_cons.mp hx with rfl | hmem
      · exact foldl_max_init_le_int ys x
      · exact foldl_max_mem_le_int ys y x hmem

theorem listMaxInt_mem (l : List Int) (h : l ≠ []) : listMaxInt l ∈ l := by
  cases l with
  | nil => exact absurd rfl h
  | cons y ys =>
      show ys.foldl max y ∈ y :: ys
      rcases foldl_max_init_or_mem_int ys y with h2 | h2
      · rw [h2]; exact List.mem_cons_self y ys
      · exact List.mem_cons_of_mem y h2

theorem listMaxInt_eq_of (l : List Int) (c : Int) (hmem : c ∈ l)
    (hub : ∀ x ∈ l, x ≤ c) : listMaxInt l = c :=
  le_antisymm (hub _ (listMaxInt_mem l (fun h => absurd (h ▸ hmem) (List.not_mem_nil c))))
    (listMaxInt_ub l c hmem)

theorem extendPortsGo_succ (fuel target : Nat) (ports : List String) :
    extendPortsGo (fuel + 1) target ports
      = (if ports.length < target then
          match ports with
          | [] => Except.error DumpError.valueError
          | _ :: _ =>
            match indexOf? (intStr (listMaxInt (ports.map int_or_zero))) ports with
            | none => Except.error DumpError.valueError
            | some i =>
                extendPortsGo fuel target
                  (insertAt ports (i + 1)
                    (intStr (listMaxInt (ports.map int_or_zero) + 1)))
        else Except.ok ports) := rfl

theorem extendPortsGo_spec :
    ∀ (fuel target : Nat) (ports : List String),
      target ≤ fuel + ports.length → ports ≠ [] →
      intStr (listMaxInt (ports.map int_or_zero)) ∈ ports →
      ∃ P2, extendPortsGo fuel target ports = Except.ok P2
        ∧ P2.length = max ports.length target
        ∧ (∀ p ∈ ports, p ∈ P2)
        ∧ (∀ p ∈ P2, p ∉ ports → ∃ n : Int, p = intStr n) := by
  intro fuel
  induction fuel with
  | zero =>
      intro target ports hfuel hne hmx
      refine ⟨ports, rfl, by omega, fun p hp => hp, fun p hp hnp => absurd hp hnp⟩
  | succ fuel ih =>
      intro target ports hfuel hne hmx
      by_cases hlt : ports.length < target
      · obtain ⟨p0, ps, rfl⟩ : ∃ p0 ps, ports = p0 :: ps := by
          cases ports with
          | nil => exact absurd rfl hne
          | cons p0 ps => exact ⟨p0, ps, rfl⟩
        obtain ⟨i, hi⟩ := indexOf?_of_mem _ _ hmx
        have hstep : extendPortsGo (fuel + 1) target (p0 :: ps)
            = extendPortsGo fuel target
                (insertAt (p0 :: ps) (i + 1)
                  (intStr (listMaxInt ((p0 :: ps).map int_or_zero) + 1))) := by
          rw [extendPortsGo_succ, if_pos hlt]
          show (match indexOf? (intStr (listMaxInt ((p0 :: ps).map int_or_zero)))
              (p0 :: ps) with
            | none => Except.error DumpError.valueError
            | some i =>
                extendPortsGo fuel target
                  (insertAt (p0 :: ps) (i + 1)
                    (intStr (listMaxInt ((p0 :: ps).map int_or_zero) + 1)))) = _
          rw [hi]
        set m := listMaxInt ((p0 :: ps).map int_or_zero) with hm
        set ports2 := insertAt (p0 :: ps) (i + 1) (intStr (m + 1)) with hp2
        have hlen2 : ports2.length = (p0 :: ps).length + 1 := insertAt_length _ _ _
        have hub : ∀ x ∈ (p0 :: ps).map int_or_zero, x ≤ m := listMaxInt_ub _
        have hrt : int_or_zero (intStr (m + 1)) = m + 1 := int_or_zero_intStr _
        have hmax2 : listMaxInt (ports2.map int_or_zero) = m + 1 := by
          apply listMaxInt_eq_of
          · exact List.mem_map.mpr
              ⟨intStr (m + 1), (insertAt_mem _ _ _ _).mpr (Or.inl rfl), hrt⟩
          · intro x hx
            obtain ⟨p, hp, rfl⟩ := List.mem_map.mp hx
            rcases (insertAt_mem _ _ _ _).mp hp with rfl | hp'
            · rw [hrt]
            · have := hub (int_or_zero p) (List.mem_map_of_mem _ hp')
              omega
        have hmx2 : intStr (listMaxInt (ports2.map int_or_zero)) ∈ ports2 := by
          rw [hmax2]
          exact (insertAt_mem _ _ _ _).mpr (Or.inl rfl)
        have hfuel2 : target ≤ fuel + ports2.length := by
          rw [hlen2]
          simp only [List.length_cons] at hfuel ⊢
          omega
        have hne2 : ports2 ≠ [] := by
          intro h
          rw [h] at hlen2
          simp at hlen2
        obtain ⟨P2, heq, hlenP, hsub, hnum⟩ := ih target ports2 hfuel2 hne2 hmx2
        refine ⟨P2, by rw [hstep]; exact heq, ?_, ?_, ?_⟩
        · rw [hlenP, hlen2]
          simp only [List.length_cons] at hlt ⊢
          omega
        · intro p hp
          exact hsub p ((insertAt_mem _ _ _ _).mpr (Or.inr hp))
        · intro p hp hnp
          by_cases hp2' : p ∈ ports2
          · rcases (insertAt_mem _ _ _ _).mp hp2' with rfl | hp''
            · exact ⟨m + 1, rfl⟩
            · exact absurd hp'' hnp
          · exact hnum p hp hp2'
      · rw [extendPortsGo_succ, if_neg hlt]
        refine ⟨ports, rfl, by omega, fun p hp => hp, fun p hp hnp => absurd hp hnp⟩

theorem charsLt_asymm : ∀ l1 l2 : List Char,
    charsLt l1 l2 = true → charsLt l2 l1 = false := by
  intro l1
  induction l1 with
  | nil =>
      intro l2 h
      cases l2 with
      | nil => exact absurd h (by decide)
      | cons b bs => rfl
  | cons a as ih =>
      intro l2 h
      cases l2 with
      | nil => simp [charsLt] at h
      | cons b bs =>
          simp only [charsLt, Bool.or_eq_true, decide_eq_true_eq, Bool.and_eq_true] at h ⊢
          simp only [Bool.or_eq_false_iff, decide_eq_false_iff_not, Bool.and_eq_false_iff]
          rcases h with hlt | ⟨heq, hcs⟩
          · exact ⟨not_lt_of_lt hlt, Or.inl (by simp [ne_of_gt hlt])⟩
          · subst heq
            exact ⟨lt_irrefl a, Or.inr (ih bs hcs)⟩

theorem charsLt_of_not_lt : ∀ l1 l2 : List Char,
    charsLt l1 l2 = false → l1 ≠ l2 → charsLt l2 l1 = true := by
  intro l1
  induction l1 with
  | nil =>
      intro l2 h hne
      cases l2 with
      | nil => exact absurd rfl hne
      | cons b bs => exact absurd h (by simp [charsLt])
  | cons a as ih =>
      intro l2 h hne
      cases l2 with
      | nil => rfl
      | cons b bs =>
          simp only [charsLt, Bool.or_eq_false_iff, decide_eq_false_iff_not,
            Bool.and_eq_false_iff] at h
          obtain ⟨hnlt, hor⟩ := h
          simp only [charsLt, Bool.or_eq_true, decide_eq_true_eq, Bool.and_eq_true]
          by_cases hba : b < a
          · exact Or.inl hba
          · have hab : a = b := le_antisymm (not_lt.mp hba) (not_lt.mp hnlt)
            subst hab
            rcases hor with h1 | h1
            · exact absurd rfl h1
            · refine Or.inr ⟨by simp, ih bs h1 ?_⟩
              intro h2
              exact hne (by rw [h2])

theorem strLt_asymm (a b : String) (h : strLt a b = true) : strLt b a = false :=
  charsLt_asymm a.data b.data h

theorem strLt_of_not_lt (a b : String) (h : strLt a b = false) (hne : a ≠ b) :
    strLt b a = true :=
  charsLt_of_not_lt a.data b.data h (fun hd => hne (by
    cases a with
    | mk da =>
        cases b with
        | mk db => exact congrArg String.mk hd))

theorem setOcc_cons (k0 : String) (v0 : ℚ) (rest : Occ) (k : String) (v : ℚ) :
    setOcc ((k0, v0) :: rest) k v
      = (if strLt k k0 then (k, v) :: (k0, v0) :: rest
        else if k = k0 then (k0, v) :: rest
        else (k0, v0) :: setOcc rest k v) := rfl

theorem lookupO_cons (k' k0 : String) (v0 : ℚ) (rest : Occ) :
    List.lookup k' ((k0, v0) :: rest)
      = (if k' = k0 then some v0 else List.lookup k' rest) := by
  show (match k' == k0 with
    | true => some v0
    | false => List.lookup k' rest) = _
  by_cases h : k' = k0
  · rw [if_pos h, show (k' == k0) = true from beq_iff_eq.mpr h]
  · rw [if_neg h, show (k' == k0) = false from beq_eq_false_iff_ne.mpr h]

theorem lookup_setOcc : ∀ (o : Occ) (k : String) (v : ℚ) (k' : String),
    List.lookup k' (setOcc o k v) = if k' = k then some v else List.lookup k' o := by
  intro o
  induction o with
  | nil =>
      intro k v k'
      show List.lookup k' [(k, v)] = _
      rw [lookupO_cons]
  | cons kv0 rest ih =>
      intro k v k'
      obtain ⟨k0, v0⟩ := kv0
      rw [setOcc_cons]
      by_cases h1 : strLt k k0
      · rw [if_pos h1, lookupO_cons, lookupO_cons]
      · rw [if_neg h1]
        by_cases h2 : k = k0
        · subst h2
          rw [if_pos rfl, lookupO_cons, lookupO_cons]
          split_ifs <;> simp_all
        · rw [if_neg h2, lookupO_cons, ih, lookupO_cons]
          split_ifs <;> simp_all

theorem setOcc_head_key : ∀ (o : Occ) (k : String) (v : ℚ) (y : String × ℚ),
    (setOcc o k v).head? = some y →
    y.1 = k ∨ ∃ z, o.head? = some z ∧ y.1 = z.1 := by
  intro o k v y
  cases o with
  | nil =>
      intro h
      simp only [setOcc, List.head?_cons, Option.some.injEq] at h
      exact Or.inl (by rw [← h])
  | cons kv0 rest =>
      obtain ⟨k0, v0⟩ := kv0
      intro h
      rw [setOcc_cons] at h
      by_cases h1 : strLt k k0
      · rw [if_pos h1] at h
        simp only [List.head?_cons, Option.some.injEq] at h
        exact Or.inl (by rw [← h])
      · rw [if_neg h1] at h
        by_cases h2 : k = k0
        · rw [if_pos h2] at h
          simp only [List.head?_cons, Option.some.injEq] at h
          exact Or.inr ⟨(k0, v0), rfl, by rw [← h]⟩
        · rw [if_neg h2] at h
          simp only [List.head?_cons, Option.some.injEq] at h
          exact Or.inr ⟨(k0, v0), rfl, by rw [← h]⟩

theorem setOcc_sorted : ∀ (o : Occ) (k : String) (v : ℚ),
    occSorted o → occSorted (setOcc o k v) := by
  intro o
  induction o with
  | nil =>
      intro k v _
      exact List.chain'_singleton _
  | cons kv0 rest ih =>
      intro k v h
      obtain ⟨k0, v0⟩ := kv0
      obtain ⟨hhead, hrest⟩ := List.chain'_cons'.mp h
      show occSorted (setOcc ((k0, v0) :: rest) k v)
      rw [setOcc_cons]
      by_cases h1 : strLt k k0
      · rw [if_pos h1]
        exact List.chain'_cons.mpr ⟨h1, h⟩
      · rw [if_neg h1]
        by_cases h2 : k = k0
        · rw [if_pos h2]
          exact List.chain'_cons'.mpr ⟨hhead, hrest⟩
        · rw [if_neg h2]
          refine List.chain'_cons'.mpr ⟨?_, ih k v hrest⟩
          intro y hy
          rcases setOcc_head_key rest k v y hy with hk | ⟨z, hz, hyz⟩
          · rw [hk]
            exact strLt_of_not_lt k k0 (Bool.eq_false_iff.mpr h1) h2
          · rw [hyz]
            exact hhead z hz

theorem setOcc_mem_key : ∀ (o : Occ) (k : String) (v : ℚ) (kv : String × ℚ),
    kv ∈ setOcc o k v → kv.1 = k ∨ kv.1 ∈ o.map Prod.fst := by
  intro o
  induction o with
  | nil =>
      intro k v kv h
      simp only [setOcc, List.mem_singleton] at h
      exact Or.inl (by rw [h])
  | cons kv0 rest ih =>
      intro k v kv h
      obtain ⟨k0, v0⟩ := kv0
      rw [setOcc_cons] at h
      by_cases h1 : strLt k k0
      · rw [if_pos h1] at h
        rcases List.mem_cons.mp h with rfl | h'
        · exact Or.inl rfl
        · rcases List.mem_cons.mp h' with rfl | h''
          · exact Or.inr (by simp)
          · exact Or.inr (by simp [List.mem_map_of_mem Prod.fst h''])
      · rw [if_neg h1] at h
        by_cases h2 : k = k0
        · rw [if_pos h2] at h
          rcases List.mem_cons.mp h with rfl | h'
          · exact Or.inr (by simp)
          · exact Or.inr (by simp [List.mem_map_of_mem Prod.fst h'])
        · rw [if_neg h2] at h
          rcases List.mem_cons.mp h with rfl | h'
          · exact Or.inr (by simp)
          · rcases ih k v kv h' with hk | hm
            · exact Or.inl hk
            · exact Or.inr (by simp [hm])

theorem densify_sorted : ∀ (ports : List String) (o : Occ),
    occSorted o → occSorted (densify ports o) := by
  intro ports
  induction ports with
  | nil => intro o h; exact h
  | cons q ports ih =>
      intro o h
      show occSorted (densify ports
        (if (List.lookup q o).isSome then o else setOcc o q 0))
      by_cases hq : (List.lookup q o).isSome
      · rw [if_pos hq]
        exact ih o h
      · rw [if_neg hq]
        exact ih _ (setOcc_sorted o q 0 h)

theorem lookup_densify : ∀ (ports : List String) (o : Occ) (p : String),
    List.lookup p (densify ports o)
      = (if (List.lookup p o).isSome then List.lookup p o
        else if p ∈ ports then some 0 else none) := by
  intro ports
  induction ports with
  | nil =>
      intro o p
      show List.lookup p o = _
      cases h : List.lookup p o with
      | none => simp [h]
      | some q => simp [h]
  | cons q ports ih =>
      intro o p
      show List.lookup p (densify ports
        (if (List.lookup q o).isSome then o else setOcc o q 0)) = _
      by_cases hq : (List.lookup q o).isSome
      · rw [if_pos hq, ih o p]
        by_cases hp : (List.lookup p o).isSome
        · rw [if_pos hp, if_pos hp]
        · rw [if_neg hp, if_neg hp]
          have hpq : p ≠ q := fun h => hp (h ▸ hq)
          simp [List.mem_cons, hpq]
      · rw [if_neg hq, ih _ p, lookup_setOcc]
        by_cases hpq : p = q
        · subst hpq
          rw [if_pos rfl]
          simp [hq]
        · rw [if_neg hpq]
          by_cases hp : (List.lookup p o).isSome
          · rw [if_pos hp, if_pos hp]
          · rw [if_neg hp, if_neg hp]
            simp [List.mem_cons, hpq]

theorem densify_mem_key : ∀ (ports : List String) (o : Occ) (kv : String × ℚ),
    kv ∈ densify ports o → kv.1 ∈ o.map Prod.fst ∨ kv.1 ∈ ports := by
  intro ports
  induction ports with
  | nil => intro o kv h; exact Or.inl (List.mem_map_of_mem Prod.fst h)
  | cons q ports ih =>
      intro o kv h
      replace h : kv ∈ densify ports
          (if (List.lookup q o).isSome then o else setOcc o q 0) := h
      by_cases hq : (List.lookup q o).isSome
      · rw [if_pos hq] at h
        rcases ih o kv h with h' | h'
        · exact Or.inl h'
        · exact Or.inr (List.mem_cons_of_mem q h')
      · rw [if_neg hq] at h
        rcases ih _ kv h with h' | h'
        · obtain ⟨kv', hkv', hfst⟩ := List.mem_map.mp h'
          rcases setOcc_mem_key o q 0 kv' hkv' with hk | hm
          · exact Or.inr (by rw [← hfst, hk]; exact List.mem_cons_self q ports)
          · exact Or.inl (by rw [← hfst]; exact hm)
        · exact Or.inr (List.mem_cons_of_mem q h')

theorem insertLE_sorted_cons (x : String × ℚ) (l : Occ)
    (hx : ∀ y ∈ l.head?, strLt x.1 y.1 = true) (h : occSorted l) :
    insertLE (fun a b => ! strLt b.1 a.1) x l = x :: l := by
  cases l with
  | nil => rfl
  | cons y ys =>
      show (if (! strLt y.1 x.1) = true then x :: y :: ys
        else y :: insertLE (fun a b => ! strLt b.1 a.1) x ys) = _
      rw [if_pos (by
        rw [strLt_asymm x.1 y.1 (hx y rfl)]
        rfl)]

theorem sortItems_of_sorted : ∀ (o : Occ), occSorted o → sortItems o = o := by
  intro o
  induction o with
  | nil => intro _; rfl
  | cons x xs ih =>
      intro h
      obtain ⟨hhead, htail⟩ := List.chain'_cons'.mp h
      show insertLE (fun a b => ! strLt b.1 a.1) x (sortItems xs) = x :: xs
      rw [ih htail]
      exact insertLE_sorted_cons x xs hhead htail

theorem insortU_mem (x : String) : ∀ (l : List String) (y : String),
    y ∈ insortU x l ↔ y = x ∨ y ∈ l := by
  intro l
  induction l with
  | nil =>
      intro y
      simp [insortU]
  | cons z zs ih =>
      intro y
      show y ∈ (if strLt x z then x :: z :: zs
        else if x = z then z :: zs else z :: insortU x zs) ↔ _
      by_cases h1 : strLt x z
      · rw [if_pos h1]
        simp
      · rw [if_neg h1]
        by_cases h2 : x = z
        · subst h2
          rw [if_pos rfl]
          constructor
          · intro h
            exact Or.inr h
          · intro h
            rcases h with rfl | h
            · exact List.mem_cons_self y zs
            · exact h
        · rw [if_neg h2]
          constructor
          · intro h
            rcases List.mem_cons.mp h with rfl | h'
            · exact Or.inr (List.mem_cons_self y zs)
            · rcases (ih y).mp h' with rfl | h''
              · exact Or.inl rfl
              · exact Or.inr (List.mem_cons_of_mem z h'')
          · intro h
            rcases h with rfl | h'
            · exact List.mem_cons_of_mem z ((ih y).mpr (Or.inl rfl))
            · rcases List.mem_cons.mp h' with rfl | h''
              · exact List.mem_cons_self y _
              · exact List.mem_cons_of_mem z ((ih y).mpr (Or.inr h''))

theorem occKeysFold_mem_acc : ∀ (o : Occ) (acc : List String) (x : String),
    x ∈ acc → x ∈ o.foldl (fun a kv => insortU kv.1 a) acc := by
  intro o
  induction o with
  | nil => intro acc x hx; exact hx
  | cons kv rest ih =>
      intro acc x hx
      rw [List.foldl_cons]
      exact ih _ x ((insortU_mem kv.1 acc x).mpr (Or.inr hx))

theorem occKeysFold_mem_key : ∀ (o : Occ) (acc : List String) (kv : String × ℚ),
    kv ∈ o → kv.1 ∈ o.foldl (fun a kv => insortU kv.1 a) acc := by
  intro o
  induction o with
  | nil => intro acc kv hkv; exact absurd hkv (List.not_mem_nil kv)
  | cons kv0 rest ih =>
      intro acc kv hkv
      rw [List.foldl_cons]
      rcases List.mem_cons.mp hkv with rfl | h
      · exact occKeysFold_mem_acc rest _ kv.1
          ((insortU_mem kv.1 acc kv.1).mpr (Or.inl rfl))
      · exact ih _ kv h

theorem unionGo_mem_acc : ∀ (md : List Entry) (acc : List String) (x : String),
    x ∈ acc →
    x ∈ md.foldl (fun acc r => r.occ.foldl (fun a kv => insortU kv.1 a) acc) acc := by
  intro md
  induction md with
  | nil => intro acc x hx; exact hx
  | cons e md ih =>
      intro acc x hx
      rw [List.foldl_cons]
      exact ih _ x (occKeysFold_mem_acc e.occ acc x hx)

theorem unionGo_mem_key : ∀ (md : List Entry) (acc : List String) (r : Entry)
    (kv : String × ℚ), r ∈ md → kv ∈ r.occ →
    kv.1 ∈ md.foldl (fun acc r => r.occ.foldl (fun a kv => insortU kv.1 a) acc) acc := by
  intro md
  induction md with
  | nil => intro acc r kv hr _; exact absurd hr (List.not_mem_nil r)
  | cons e md ih =>
      intro acc r kv hr hkv
      rw [List.foldl_cons]
      rcases List.mem_cons.mp hr with rfl | h
      · exact unionGo_mem_acc md _ kv.1 (occKeysFold_mem_key r.occ acc kv hkv)
      · exact ih _ r kv h hkv

theorem portsUnion_mem_key (md : List Entry) (r : Entry) (kv : String × ℚ)
    (hr : r ∈ md) (hkv : kv ∈ r.occ) : kv.1 ∈ portsUnion md :=
  unionGo_mem_key md [] r kv hr hkv

/-- C9 counterexample: the claim says that for every model table the
serializer extends the collected port set with synthetic numeric
identifiers until it reaches the declared count and then densifies every
row.  For a table whose only port is the division pipeline `0DV`, the
maximum numeric identifier is 0 but the string `0` is not among the ports,
so `ports.index(str(max(...)))` raises `ValueError` instead: serialization
fails and no rows are emitted. -/
theorem c9_dump_csv_counterexample :
    dump_csv [⟨"divfoo", 1, none, [("0DV", 1)]⟩] 2 0
      = Except.error DumpError.valueError := by rfl

/-- C9 amended: provided the collected port-identifier set is nonempty and
contains the decimal string of its maximum numeric identifier (otherwise
the serializer fails with a `ValueError`, as in the counterexample), the
serializer extends the sorted union of port identifiers with synthetic
numeric identifiers (each the string of the incremented maximum) until the
count reaches the declared port count plus the declared extra pipeline
ports, and every emitted row carries one occupancy value for every port of
the full set, keeping measured values and filling unseen ports with `0.0`,
listed in ascending lexicographic order of port identifier. -/
theorem c9_dump_csv_amended (md : List Entry) (nports extraPorts : Nat)
    (hcanon : ∀ r ∈ md, occSorted r.occ)
    (hne : portsUnion md ≠ [])
    (hmx : intStr (listMaxInt ((portsUnion md).map int_or_zero)) ∈ portsUnion md) :
    ∃ P2, extendPorts (nports + extraPorts) (portsUnion md) = Except.ok P2
      ∧ P2.length = max (portsUnion md).length (nports + extraPorts)
      ∧ (∀ p ∈ portsUnion md, p ∈ P2)
      ∧ (∀ p ∈ P2, p ∉ portsUnion md → ∃ n : Int, p = intStr n)
      ∧ dump_csv md nports extraPorts
        = Except.ok (md.map (fun r =>
            (r.instr, r.tp, r.lt, sortItems (densify P2 r.occ))))
      ∧ ∀ r ∈ md,
          occSorted (sortItems (densify P2 r.occ))
          ∧ (∀ kv ∈ sortItems (densify P2 r.occ), kv.1 ∈ P2)
          ∧ ∀ p ∈ P2, ∃ q,
              List.lookup p (sortItems (densify P2 r.occ)) = some q
              ∧ (List.lookup p r.occ = some q
                  ∨ (q = 0 ∧ List.lookup p r.occ = none)) := by
  obtain ⟨P2, heq, hlen, hsub, hnum⟩ :=
    extendPortsGo_spec (nports + extraPorts) (nports + extraPorts) (portsUnion md)
      (Nat.le_add_right _ _) hne hmx
  refine ⟨P2, heq, hlen, hsub, hnum, ?_, ?_⟩
  · unfold dump_csv extendPorts
    rw [heq]
  · intro r hr
    have hsd : occSorted (densify P2 r.occ) := densify_sorted P2 r.occ (hcanon r hr)
    have hid : sortItems (densify P2 r.occ) = densify P2 r.occ :=
      sortItems_of_sorted _ hsd
    refine ⟨by rw [hid]; exact hsd, ?_, ?_⟩
    · intro kv hkv
      rw [hid] at hkv
      rcases densify_mem_key P2 r.occ kv hkv with hk | hp
      · obtain ⟨kv', hkv', hfst⟩ := List.mem_map.mp hk
        exact hsub _ (hfst ▸ portsUnion_mem_key md r kv' hr hkv')
      · exact hp
    · intro p hp
      rw [hid, lookup_densify]
      by_cases hs : (List.lookup p r.occ).isSome
      · obtain ⟨q, hq⟩ := Option.isSome_iff_exists.mp hs
        rw [if_pos hs]
        exact ⟨q, hq, Or.inl hq⟩
      · rw [if_neg hs, if_pos hp]
        exact ⟨0, rfl, Or.inr ⟨rfl, Option.not_isSome_iff_eq_none.mp hs⟩⟩

theorem c9_dump_csv_amended_witness :
    ∃ P2, extendPorts (3 + 0) (portsUnion [⟨"a-", 1, none, [("0", 1)]⟩])
        = Except.ok P2
      ∧ P2.length = max (portsUnion [⟨"a-", 1, none, [("0", 1)]⟩]).length (3 + 0)
      ∧ (∀ p ∈ portsUnion [⟨"a-", 1, none, [("0", 1)]⟩], p ∈ P2)
      ∧ (∀ p ∈ P2, p ∉ portsUnion [⟨"a-", 1, none, [("0", 1)]⟩] →
          ∃ n : Int, p = intStr n)
      ∧ dump_csv [⟨"a-", 1, none, [("0", 1)]⟩] 3 0
        = Except.ok (([⟨"a-", 1, none, [("0", 1)]⟩] : List Entry).map (fun r =>
            (r.instr, r.tp, r.lt, sortItems (densify P2 r.occ))))
      ∧ ∀ r ∈ ([⟨"a-", 1, none, [("0", 1)]⟩] : List Entry),
          occSorted (sortItems (densify P2 r.occ))
          ∧ (∀ kv ∈ sortItems (densify P2 r.occ), kv.1 ∈ P2)
          ∧ ∀ p ∈ P2, ∃ q,
              List.lookup p (sortItems (densify P2 r.occ)) = some q
              ∧ (List.lookup p r.occ = some q
                  ∨ (q = 0 ∧ List.lookup p r.occ = none)) :=
  c9_dump_csv_amended [⟨"a-", 1, none, [("0", 1)]⟩] 3 0
    (by
      intro r hr
      rcases List.mem_singleton.mp hr with rfl
      exact List.chain'_singleton _)
    (by decide) (by decide)
